import Mathlib

set_option maxRecDepth 10000

/-!
Verification of the py7zr 7z-archive reader (`py7zr/py7zr.py`).

This file is a shallow embedding of the reader pipeline of `py7zr.py`:
the `ArchiveFile` property accessors, the file-list reconstructor
`SevenZipFile._filelist_retrieve`, the header CRC check
`SevenZipFile._read_header_data`, the integrity test
(`_test_digest_raw` / `_test_pack_digest` / `_test_unpack_digest` /
`_test_digests` / `test`), the `list()` contents report, and the
registration phase of `extractall`.

Python dynamic values are embedded explicitly: a value that can be
`None` becomes an `Option`, a value that can be either an `int` or a
`list` becomes a two-constructor inductive, and dictionary file records
become structures with optional fields.  Python `int`s appearing here
are all non-negative, so they are embedded as `Nat`.  List indexing is
embedded with `List.getD`; theorems that depend on an access carry
hypotheses putting the index in range, matching the runs in which the
Python code does not raise `IndexError`.

Code of the repository that lives outside `py7zr/py7zr.py` (the modules
`py7zr.archiveinfo`, `py7zr.helpers`, `py7zr.properties` and
`py7zr.compression`) is not part of the source tree being verified;
where such code decides a behaviour it is modelled from the
specification and the definition's doc comment says so.
-/

/-- Error kinds of the reader, following the specification's taxonomy (§7).
In the source all of `notSevenZ`, `corrupt`, `badHeader` and `pathEscape`
are raised as the single Python exception class `Bad7zFile`;
`attributeError` stands for Python's built-in `AttributeError`. -/
inductive PyError where
  | notSevenZ
  | corrupt
  | badHeader
  | pathEscape
  | truncated
  | attributeError
  | ioError
deriving DecidableEq

/-- Which error kinds correspond to the Python exception class `Bad7zFile`
(the class caught by `_test_unpack_digest`). -/
def PyError.isBad7zFile : PyError → Bool
  | .notSevenZ => true
  | .corrupt => true
  | .badHeader => true
  | .pathEscape => true
  | _ => false

/-! ### CRC32

`calculate_crc32` lives in `py7zr.helpers` (not in src/). -/

/-- One byte step of the reflected IEEE CRC-32 (polynomial 0xEDB88320). -/
def crc32update (r b : Nat) : Nat :=
  let step := fun (x : Nat) => if x % 2 = 1 then (x >>> 1) ^^^ 0xEDB88320 else x >>> 1
  step (step (step (step (step (step (step (step (r ^^^ b))))))))

/-- Fold the CRC register over a byte list. -/
def crc32raw (r : Nat) (data : List Nat) : Nat := data.foldl crc32update r

/-- Modelled from the spec: `calculate_crc32` from `py7zr.helpers` (not in
src/).  §4.5: IEEE polynomial 0xEDB88320, initial value 0xFFFFFFFF, final
XOR 0xFFFFFFFF, reflected, incremental across arbitrary splits; the second
argument is the previous running value (`None` meaning a fresh start). -/
def calculate_crc32 (data : List Nat) (value : Option Nat) : Nat :=
  crc32raw ((value.getD 0) ^^^ 0xFFFFFFFF) data ^^^ 0xFFFFFFFF

/-! ### File attributes (`py7zr.properties.FileAttribute` is not in src/) -/

/-- Modelled from the spec: `FileAttribute.DIRECTORY` (§4.3 gives the
Windows DIRECTORY bit 0x10). -/
def FileAttribute.DIRECTORY : Nat := 0x10

/-- Modelled from the spec: `FileAttribute.READONLY`, the Windows
read-only attribute bit. -/
def FileAttribute.READONLY : Nat := 0x01

/-- Modelled from the spec: `FileAttribute.ARCHIVE`, the Windows
`archive` attribute bit. -/
def FileAttribute.ARCHIVE : Nat := 0x20

/-- Modelled from the spec: `FileAttribute.UNIX_EXTENSION`, the 7z flag
marking that the high 16 attribute bits carry a POSIX `st_mode` (§4.3). -/
def FileAttribute.UNIX_EXTENSION : Nat := 0x8000

/-- Python `stat.S_IFMT`: the file-type portion of a mode. -/
def S_IFMT (m : Nat) : Nat := m &&& 0xF000

/-- Python `stat.S_IFDIR`. -/
def S_IFDIR : Nat := 0x4000

/-- Python `stat.S_IFLNK`. -/
def S_IFLNK : Nat := 0xA000

/-- Python `stat.S_IFSOCK`. -/
def S_IFSOCK : Nat := 0xC000

/-- Python `stat.S_ISLNK`. -/
def S_ISLNK (m : Nat) : Bool := S_IFMT m == S_IFLNK

/-- Python `stat.S_ISSOCK`. -/
def S_ISSOCK (m : Nat) : Bool := S_IFMT m == S_IFSOCK

/-! ### The data model of the decoded header

`Folder`, `PackInfo`, `UnpackInfo`, `SubstreamsInfo` and the parsed file
records come from `py7zr.archiveinfo` (not in src/); their fields are
modelled from the spec's data model (§3) restricted to the fields that
`py7zr.py` reads. -/

/-- A coder record of a folder; `py7zr.py` reads only
`coder.get('numinstreams', 1)` from it (spec §3: `num_in_streams`,
default 1). -/
structure Coder where
  numinstreams : Option Nat := none
deriving DecidableEq

/-- Modelled from the spec: a folder (§3) restricted to the fields
`py7zr.py` reads: its coder chain and its per-coder unpack sizes.  The
mutable `solid` flag and `files` back-reference that `py7zr.py` itself
writes onto folder objects are kept in the reconstruction state below. -/
structure Folder where
  coders : List Coder := []
  unpacksizes : List Nat := []
deriving DecidableEq, Inhabited

/-- The running maximum of `coder.get('numinstreams', 1)` starting from 1,
exactly the `numinstreams` computed at py7zr.py:395-397. -/
def Folder.numInstreams (f : Folder) : Nat :=
  f.coders.foldl (fun m c => max m (c.numinstreams.getD 1)) 1

/-- Modelled from the spec: `PackInfo` (§3): start offset, sizes and
optional CRCs of the pack streams, plus the stream count. -/
structure PackInfo where
  packpos : Nat := 0
  packsizes : List Nat := []
  numstreams : Nat := 0
  crcs : Option (List Nat) := none
deriving DecidableEq

/-- Modelled from the spec: `UnpackInfo` (§3): the folders. -/
structure UnpackInfo where
  folders : List Folder := []
  numfolders : Nat := 0
deriving DecidableEq

/-- Modelled from the spec: `SubstreamsInfo` (§3): per-folder substream
counts, the substream sizes (when the section carried them), and the
substream digest bitmap and values. -/
structure SubstreamsInfo where
  num_unpackstreams_folders : List Nat := []
  unpacksizes : Option (List Nat) := none
  digestsdefined : List Bool := []
  digests : List Nat := []
deriving DecidableEq

/-- The `main_streams` record of a decoded header. -/
structure StreamsInfo where
  packinfo : PackInfo := {}
  unpackinfo : UnpackInfo := {}
  substreamsinfo : SubstreamsInfo := {}
deriving DecidableEq

/-- A file record as parsed by `FilesInfo` (§3), before the file-list
reconstructor runs: the fields `py7zr.py` reads from it.  A missing
dictionary key is `none`. -/
structure FileRec where
  filename : Option String := none
  emptystream : Bool := false
  attributes : Option Nat := none
  lastwritetime : Option Nat := none
deriving DecidableEq

/-- Modelled from the spec: `FilesInfo` (§3): the ordered file records. -/
structure FilesInfo where
  files : List FileRec := []
deriving DecidableEq

/-- A decoded header: `main_streams` and `files_info` are absent when the
metadata blob had no such section (`hasattr` / `getattr(..., None)` checks
in py7zr.py:334 and 347). -/
structure Header where
  main_streams : Option StreamsInfo := none
  files_info : Option FilesInfo := none
deriving DecidableEq

/-- A Python value that is either an `int` or a `list` of ints: the
possible shapes of one entry of the local `unpacksizes` vector of
`_filelist_retrieve` (py7zr.py:353-356). -/
inductive UnpackEntry where
  | single : Nat → UnpackEntry
  | sizes : List Nat → UnpackEntry
deriving DecidableEq

/-- A Python value that is either an `int` or a `list`: the shapes taken
by `file_info['compressed']` (py7zr.py:387-393 and 401). -/
inductive CompVal where
  | int : Nat → CompVal
  | sizes : List Nat → CompVal
deriving DecidableEq

/-- A reconstructed file record, after `_filelist_retrieve` filled in the
computed keys.  `folder` holds the index of the file's folder object
(`none` embeds Python `None`). -/
structure OutFile where
  filename : String := ""
  emptystream : Bool := false
  attributes : Option Nat := none
  lastwritetime : Option Nat := none
  compressed : Option CompVal := none
  uncompressed : List Nat := []
  packsizes : List Nat := []
  maxsize : Option Nat := none
  folder : Option Nat := none
  digest : Option Nat := none
deriving DecidableEq

/-! ### `ArchiveFile` property accessors (py7zr.py:50-183) -/

/-- `ArchiveFile._test_attribute`: the attributes are absent → `False`;
otherwise test the mask (py7zr.py:116-120). -/
def testAttribute (f : OutFile) (targetBit : Nat) : Bool :=
  match f.attributes with
  | none => false
  | some a => a &&& targetBit == targetBit

/-- `ArchiveFile.is_directory` (py7zr.py:127-130). -/
def isDirectory (f : OutFile) : Bool := testAttribute f FileAttribute.DIRECTORY

/-- `ArchiveFile.archivable` (py7zr.py:122-125). -/
def archivable (f : OutFile) : Bool := testAttribute f FileAttribute.ARCHIVE

/-- `ArchiveFile.readonly` (py7zr.py:132-135). -/
def readonlyFlag (f : OutFile) : Bool := testAttribute f FileAttribute.READONLY

/-- `ArchiveFile._get_unix_extension` (py7zr.py:137-141). -/
def getUnixExtension (f : OutFile) : Option Nat :=
  if testAttribute f FileAttribute.UNIX_EXTENSION then f.attributes.map (· >>> 16)
  else none

/-- `ArchiveFile.is_symlink` (py7zr.py:143-149). -/
def isSymlink (f : OutFile) : Bool :=
  match getUnixExtension f with
  | some e => S_ISLNK e
  | none => false

/-- `ArchiveFile.is_socket` (py7zr.py:151-157). -/
def isSocket (f : OutFile) : Bool :=
  match getUnixExtension f with
  | some e => S_ISSOCK e
  | none => false

/-- `ArchiveFile.uncompressed_size` (py7zr.py:106-109):
`functools.reduce(operator.add, self.uncompressed)`; on an empty list the
Python call raises, embedded as `none`. -/
def uncompressedSize (f : OutFile) : Option Nat :=
  match f.uncompressed with
  | [] => none
  | x :: xs => some (xs.foldl (· + ·) x)

/-- The directory test in the words of the specification (§4.3) and of the
claim: `empty_stream == true` AND (the Windows DIRECTORY bit 0x10, or a
POSIX UNIX_EXTENSION mode whose file type is `S_IFDIR`).  This definition
follows the spec's words, for comparison with `isDirectory` above. -/
def specIsDirectory (f : OutFile) : Bool :=
  f.emptystream &&
    (testAttribute f FileAttribute.DIRECTORY ||
      (match getUnixExtension f with
       | some e => S_IFMT e == S_IFDIR
       | none => false))

/-! ### Filename generation for nameless records (py7zr.py:412-424) -/

/-- Python `os.path.basename` for POSIX paths: the part after the last
separator. -/
def pyBasename (p : String) : String :=
  ⟨p.data.foldl (fun acc c => if c = '/' then [] else acc ++ [c]) []⟩

/-- The last index at which a character occurs, Python `str.rfind`
restricted to a successful search. -/
def rfindChar (cs : List Char) (c : Char) : Option Nat :=
  ((cs.enum.filter (fun x => x.2 = c)).getLast?).map (fun x => x.1)

/-- Python `os.path.splitext` for POSIX paths: split at the last dot that
comes after the last separator, unless every character of the base name
before that dot is itself a dot. -/
def pySplitext (p : String) : String × String :=
  let cs := p.data
  let sepI : Int := match rfindChar cs '/' with
    | none => -1
    | some s => s
  let dotI : Int := match rfindChar cs '.' with
    | none => -1
    | some s => s
  if sepI < dotI then
    let d := dotI.toNat
    let start := (sepI + 1).toNat
    if ((cs.drop start).take (d - start)).any (fun c => c ≠ '.') then
      (⟨cs.take d⟩, ⟨cs.drop d⟩)
    else (p, "")
  else (p, "")

/-- The name assigned to a file record stored without a name
(py7zr.py:412-424): the archive's base file name without its extension,
or the literal string `contents` when the archive has no name.  (The
`AttributeError` arm of the source is dead: `__init__` always sets
`self.filename`, possibly to `None`.) -/
def generateFilename (basefilename : Option String) : String :=
  match basefilename with
  | some b => (pySplitext (pyBasename b)).1
  | none => "contents"

/-! ### The file-list reconstructor `_filelist_retrieve` (py7zr.py:344-446) -/

/-- The vectors that py7zr.py:345-362 set up before the per-file loop. -/
structure RetrCtx where
  folders : List Folder := []
  packsizes : List Nat := []
  numunpack : List Nat := []
  digestsdefined : List Bool := []
  digests : List Nat := []
  unpacksizes : List UnpackEntry := []
  basefilename : Option String := none

/-- The loop state of `_filelist_retrieve` (py7zr.py:364-370), together
with the per-folder attributes that the loop mutates on the folder
objects: `solids` is each folder's `solid` flag (initially `False`) and
`folder_files` is each folder's `files` list, kept as
`(offset, member ids)` (initially `None`, py7zr.py:436-438). -/
structure RetrState where
  folder_index : Nat := 0
  output_binary_index : Nat := 0
  streamidx : Nat := 0
  file_in_solid : Nat := 0
  instreamindex : Nat := 0
  src_pos : Nat := 0
  folder_pos : Nat := 0
  solids : List Bool := []
  folder_files : List (Option (Nat × List Nat)) := []

/-- `num_unpackstreams_folders` at a folder index. -/
def nuAt (ctx : RetrCtx) (k : Nat) : Nat := ctx.numunpack.getD k 0

/-- The folder's `numinstreams` at a folder index. -/
def nisAt (ctx : RetrCtx) (k : Nat) : Nat := (ctx.folders.getD k {}).numInstreams

/-- The pack-stream cursor in front of folder `k`: the sum of the
`numinstreams` of the folders before it. -/
def cursorAt (ctx : RetrCtx) (k : Nat) : Nat :=
  ((ctx.folders.take k).map Folder.numInstreams).sum

/-- The folder `solid` flags after the (re)assignment of py7zr.py:376-377:
at the first substream of a folder the flag becomes
`num_unpackstreams_folders[folder_index] > 1`. -/
def solidsAfter (ctx : RetrCtx) (st : RetrState) : List Bool :=
  if st.streamidx = 0 then
    st.solids.set st.folder_index (decide (1 < nuAt ctx st.folder_index))
  else st.solids

/-- The loop body of `_filelist_retrieve` for a record with
`emptystream == False` while `folders is not None`
(py7zr.py:374-399 and 408-446). -/
def filelistStepStream (ctx : RetrCtx) (fid : Nat) (f : FileRec) (st : RetrState) :
    OutFile × RetrState :=
  let fi := st.folder_index
  let solids := solidsAfter ctx st
  let solid := solids.getD fi false
  let psi := ctx.packsizes.getD st.instreamindex 0
  let maxsize : Option Nat := if solid then (if psi ≠ 0 then some psi else none) else none
  let folder := ctx.folders.getD fi {}
  let uncompressed : List Nat :=
    match ctx.unpacksizes.getD st.output_binary_index (UnpackEntry.single 0) with
    | .single s => List.replicate folder.coders.length s
    | .sizes l => l
  let compressed : Option CompVal :=
    if 0 < st.file_in_solid then none
    else if st.instreamindex < ctx.packsizes.length then some (CompVal.int psi)
    else some (CompVal.sizes uncompressed)
  let numinstreams := folder.numInstreams
  let fpacksizes := (ctx.packsizes.drop st.instreamindex).take numinstreams
  let digest : Option Nat :=
    if ctx.digestsdefined.getD st.output_binary_index false then
      some (ctx.digests.getD st.output_binary_index 0)
    else none
  let filename := match f.filename with
    | some n => n
    | none => generateFilename ctx.basefilename
  let out : OutFile :=
    { filename, emptystream := f.emptystream, attributes := f.attributes,
      lastwritetime := f.lastwritetime, compressed, uncompressed,
      packsizes := fpacksizes, maxsize, folder := some fi, digest }
  let file_in_solid := if solid then 1 else st.file_in_solid
  let obi := st.output_binary_index + 1
  let folder_files := match st.folder_files.getD fi none with
    | none => st.folder_files.set fi (some (fid, [fid]))
    | some (off, ids) => st.folder_files.set fi (some (off, ids ++ [fid]))
  let streamidx := st.streamidx + 1
  let st2 : RetrState :=
    if nuAt ctx fi ≤ streamidx then
      let fpos := st.folder_pos +
        ((List.range numinstreams).map (fun x => ctx.packsizes.getD (st.instreamindex + x) 0)).sum
      { folder_index := fi + 1, output_binary_index := obi, streamidx := 0,
        file_in_solid := 0, instreamindex := st.instreamindex + numinstreams,
        src_pos := fpos, folder_pos := fpos, solids, folder_files }
    else
      { st with output_binary_index := obi, streamidx, file_in_solid, solids, folder_files }
  (out, st2)

/-- The loop body of `_filelist_retrieve` for a record with
`emptystream == True`, or when the header has no main streams
(py7zr.py:400-406 and 433-434). -/
def filelistStepEmpty (ctx : RetrCtx) (f : FileRec) (st : RetrState) :
    OutFile × RetrState :=
  let filename := match f.filename with
    | some n => n
    | none => generateFilename ctx.basefilename
  let out : OutFile :=
    { filename, emptystream := f.emptystream, attributes := f.attributes,
      lastwritetime := f.lastwritetime, compressed := some (CompVal.int 0),
      uncompressed := [0], packsizes := [0], maxsize := some 0,
      folder := none, digest := none }
  (out, { st with src_pos := st.src_pos + 0 })

/-- One iteration of the `_filelist_retrieve` loop (py7zr.py:372-446). -/
def filelistStep (ctx : RetrCtx) (hasFolders : Bool) (fid : Nat) (f : FileRec)
    (st : RetrState) : OutFile × RetrState :=
  if !f.emptystream && hasFolders then filelistStepStream ctx fid f st
  else filelistStepEmpty ctx f st

/-- The `for file_id, file_info in enumerate(...)` loop of
`_filelist_retrieve`, returning the reconstructed records in order. -/
def filelistLoop (ctx : RetrCtx) (hasFolders : Bool) : Nat → RetrState → List FileRec → List OutFile
  | _, _, [] => []
  | fid, st, f :: fs =>
    let p := filelistStep ctx hasFolders fid f st
    p.1 :: filelistLoop ctx hasFolders (fid + 1) p.2 fs

/-- The set-up of py7zr.py:345-362: unify `subinfo.unpacksizes` (a vector
of ints) with the per-folder `unpacksizes` lists when the former is
absent, and degrade to empty vectors when the header has no
`main_streams`.  Returns the context plus the `folders is not None`
flag. -/
def mkCtxOf (basefilename : Option String) (ms : StreamsInfo) : RetrCtx :=
  { folders := ms.unpackinfo.folders,
    packsizes := ms.packinfo.packsizes,
    numunpack := ms.substreamsinfo.num_unpackstreams_folders,
    digestsdefined := ms.substreamsinfo.digestsdefined,
    digests := ms.substreamsinfo.digests,
    unpacksizes :=
      match ms.substreamsinfo.unpacksizes with
      | some l => l.map UnpackEntry.single
      | none => ms.unpackinfo.folders.map (fun f => UnpackEntry.sizes f.unpacksizes),
    basefilename }

/-- The initial loop state of `_filelist_retrieve` (py7zr.py:364-370):
all cursors at zero, positions at `afterheader`, every folder's `solid`
flag `False` and `files` list `None`. -/
def initRetrState (afterheader : Nat) (ms : StreamsInfo) : RetrState :=
  { src_pos := afterheader, folder_pos := afterheader,
    solids := ms.unpackinfo.folders.map (fun _ => false),
    folder_files := ms.unpackinfo.folders.map (fun _ => none) }

/-- See `mkCtxOf` for the main-streams case. -/
def mkRetrCtx (basefilename : Option String) (hdr : Header) : RetrCtx × Bool :=
  match hdr.main_streams with
  | some ms => (mkCtxOf basefilename ms, true)
  | none =>
    ({ folders := [], packsizes := [], numunpack := [], digestsdefined := [],
       digests := [], unpacksizes := [UnpackEntry.single 0], basefilename }, false)

/-- `SevenZipFile._filelist_retrieve` (py7zr.py:344-446), combined with
the guard of `_real_get_contents` (py7zr.py:334-335): when `files_info`
is absent the archive's file list stays empty.  The folder `solid` flags
start out `False` (the initial value on folder objects) and the folder
`files` lists start out `None`. -/
def filelistRetrieve (basefilename : Option String) (afterheader : Nat) (hdr : Header) :
    List OutFile :=
  match hdr.files_info with
  | none => []
  | some finfo =>
    let p := mkRetrCtx basefilename hdr
    filelistLoop p.1 p.2 0
      { src_pos := afterheader, folder_pos := afterheader,
        solids := p.1.folders.map (fun _ => false),
        folder_files := p.1.folders.map (fun _ => none) } finfo.files

/-! ### The `list()` report (py7zr.py:607-616) -/

/-- One `FileInfo` record as built by `SevenZipFile.list`.  Timestamps are
kept abstract: `creationtime` holds the image of a lastwritetime under the
conversion `filetime_to_dt` (from `py7zr.helpers`, not in src/), which the
embedding takes as a parameter. -/
structure PyFileInfo where
  filename : String := ""
  compressed : Option CompVal := none
  uncompressed : Option Nat := none
  archivable : Bool := false
  is_directory : Bool := false
  creationtime : Option Nat := none
deriving DecidableEq

/-- The loop of `SevenZipFile.list` (py7zr.py:609-616): the local
`creationtime` variable is updated only when a record has a
`lastwritetime`, and every record reports the variable's current value. -/
def listLoop (conv : Nat → Nat) : Option Nat → List OutFile → List PyFileInfo
  | _, [] => []
  | ct, f :: fs =>
    let ct2 := match f.lastwritetime with
      | some t => some (conv t)
      | none => ct
    { filename := f.filename, compressed := f.compressed,
      uncompressed := uncompressedSize f, archivable := archivable f,
      is_directory := isDirectory f, creationtime := ct2 } :: listLoop conv ct2 fs

/-! ### `extractall`: the registration loop (py7zr.py:622-705)

Only the planning phase is embedded: which entries raise, which paths are
queued as directories, which `(id, path)` pairs are registered for the
worker, and the `multi_thread` flag.  The filesystem is abstracted into a
predicate `fsExists` for the single `outfilename.exists()` probe of the
directory branch. -/

/-- The accumulated plan of the `extractall` registration loop. -/
structure ExtractPlan where
  multi_thread : Bool := false
  fnames : List String := []
  target_dirs : List String := []
  target_files : List String := []
  target_sym : List (Nat × String) := []
  registered : List (Nat × String) := []
deriving DecidableEq

/-- `pathlib` path joining as used for `outfilename` (py7zr.py:661-664). -/
def pyJoinPath (base n : String) : String := base ++ "/" ++ n

/-- Python `str.startswith`, over the character lists. -/
def pyStartswith (s p : String) : Bool := p.data.isPrefixOf s.data

/-- The `outfilename` computation of py7zr.py:661-664: join with the
target directory when one was given. -/
def outNameFor (path : Option String) (n : String) : String :=
  match path with
  | some p => pyJoinPath p n
  | none => n

/-- The branch of the `extractall` loop body that queues one entry
according to its kind (py7zr.py:665-680): directories not yet on disk go
to `target_dirs` (and `target_files` for the later property pass),
sockets are skipped, symlinks are registered with an in-memory buffer,
and everything else is registered with its output path. -/
def extractQueue (fsExists : String → Bool) (fid : Nat) (f : OutFile)
    (outfilename : String) (st1 : ExtractPlan) : ExtractPlan :=
  if isDirectory f then
    if fsExists outfilename then st1
    else { st1 with target_dirs := st1.target_dirs ++ [outfilename],
                    target_files := st1.target_files ++ [outfilename] }
  else if isSocket f then st1
  else if isSymlink f then
    { st1 with target_sym := st1.target_sym ++ [(fid, f.filename)] }
  else { st1 with registered := st1.registered ++ [(fid, outfilename)],
                  target_files := st1.target_files ++ [outfilename] }

/-- The `for f in self.files` loop of `extractall` (py7zr.py:649-680):
reject names starting with `../` (raised as `Bad7zFile` in the source,
the spec's `PathEscape`), degrade `multi_thread` on a duplicate filename,
then queue the entry according to its kind. -/
def extractLoop (fsExists : String → Bool) (path : Option String) :
    Nat → ExtractPlan → List OutFile → Except PyError ExtractPlan
  | _, st, [] => .ok st
  | fid, st, f :: fs =>
    if pyStartswith f.filename "../" then .error PyError.pathEscape
    else
      let mt := if st.fnames.contains f.filename then false else st.multi_thread
      let st1 := { st with multi_thread := mt, fnames := st.fnames ++ [f.filename] }
      extractLoop fsExists path (fid + 1)
        (extractQueue fsExists fid f (outNameFor path f.filename) st1) fs

/-- `SevenZipFile.extractall` up to the hand-off to the worker: the
initial `multi_thread` decision (py7zr.py:646-647) reads
`self.header.main_streams` (an `AttributeError` when the header has no
main streams) and the registration loop runs over the file list. -/
def extractall (fsExists : String → Bool) (path : Option String) (hdr : Header)
    (files : List OutFile) : Except PyError ExtractPlan :=
  match hdr.main_streams with
  | none => .error PyError.attributeError
  | some ms =>
    let mt := decide (1 < ms.unpackinfo.numfolders) &&
      (ms.packinfo.numstreams == ms.unpackinfo.numfolders)
    extractLoop fsExists path 0 { multi_thread := mt } files

/-- The paths `extractall` goes on to create once the registration loop
has finished: the queued directories (py7zr.py:681-691), the files the
worker writes (py7zr.py:692), and the symlink destinations
(py7zr.py:693-703).  A run that raised during registration creates
nothing, because the raise precedes all of them. -/
def createdPaths (path : Option String) (r : Except PyError ExtractPlan) : List String :=
  match r with
  | .error _ => []
  | .ok p =>
    p.target_dirs ++ p.registered.map (fun e => e.2) ++
      p.target_sym.map (fun e => match path with
        | some b => pyJoinPath b e.2
        | none => e.2)

/-- Modelled from the spec: the sequential extraction worker
(`py7zr.compression.Worker`, not in src/).  §4.4/§5: when running
sequentially the worker delivers each registered sink's bytes in header
order, so a later write to a path replaces an earlier one; the value kept
per path is the id of the entry that wrote last. -/
def workerWrite (registered : List (Nat × String)) (p : String) : Option Nat :=
  registered.foldl (fun acc e => if e.2 == p then some e.1 else acc) none

/-! ### Signature header, header CRC check and `open` -/

/-- `MAGIC_7Z` from `py7zr.properties` (not in src/); the spec (§3) gives
the six magic bytes. -/
def MAGIC_7Z : List Nat := [0x37, 0x7A, 0xBC, 0xAF, 0x27, 0x1C]

/-- `SevenZipFile._check_7zfile` (py7zr.py:473-477): compare the first
six bytes against the magic. -/
def checkMagic (data : List Nat) : Bool := data.take 6 == MAGIC_7Z

/-- Little-endian byte-list decoding. -/
def leNat (bs : List Nat) : Nat := bs.foldr (fun b acc => b + 256 * acc) 0

/-- The decoded fields of the 32-byte signature header. -/
structure SigHeader where
  version_major : Nat := 0
  version_minor : Nat := 0
  startheadercrc : Nat := 0
  nextheaderofs : Nat := 0
  nextheadersize : Nat := 0
  nextheadercrc : Nat := 0
deriving DecidableEq

/-- Modelled from the spec: `SignatureHeader.retrieve` from
`py7zr.archiveinfo` (not in src/).  §3/§4.1: the 32-byte prefix is
magic(6) ++ version(2) ++ start_header_crc(4, little-endian, a CRC32 over
the 20 bytes that follow it) ++ next_header_offset(8) ++
next_header_size(8) ++ next_header_crc(4); a start-header CRC mismatch is
the spec's `Corrupt` (§7), a short file its `Truncated`. -/
def sigHeaderRetrieve (data : List Nat) : Except PyError SigHeader :=
  if data.length < 32 then .error PyError.truncated
  else
    let sub := fun (a b : Nat) => (data.drop a).take b
    let shcrc := leNat (sub 8 4)
    if calculate_crc32 (sub 12 20) none ≠ shcrc then .error PyError.corrupt
    else
      .ok { version_major := data.getD 6 0, version_minor := data.getD 7 0,
            startheadercrc := shcrc,
            nextheaderofs := leNat (sub 12 8), nextheadersize := leNat (sub 20 8),
            nextheadercrc := leNat (sub 28 4) }

/-- `SevenZipFile._read_header_data` (py7zr.py:337-342): seek to
`afterheader + nextheaderofs`, read `nextheadersize` bytes, and fail
(`Bad7zFile('invalid header data')`, the spec's `Corrupt`) unless the
stored `nextheadercrc` equals the CRC32 of the bytes just read. -/
def readHeaderData (data : List Nat) (sig : SigHeader) (afterheader : Nat) :
    Except PyError (List Nat) :=
  let buffer := (data.drop (afterheader + sig.nextheaderofs)).take sig.nextheadersize
  if sig.nextheadercrc ≠ calculate_crc32 buffer none then .error PyError.corrupt
  else .ok buffer

/-- An opened archive handle: the state `__init__` leaves behind for the
public methods.  `testExtractOutcome` abstracts the result of
`Worker.extract` during `_test_unpack_digest` (`py7zr.compression` is not
in src/): `none` when every folder decompresses and verifies, otherwise
the error the worker raises. -/
structure Archive where
  data : List Nat := []
  filename : Option String := none
  sig : SigHeader := {}
  afterheader : Nat := 32
  header : Header := {}
  files : List OutFile := []
  testExtractOutcome : Option PyError := none
deriving DecidableEq

/-- `SevenZipFile.__init__` in read mode, through `_real_get_contents`
and `reset` (py7zr.py:284-287 and 321-335): magic check, signature
header, header CRC check, header decode, then the file list.  The header
decoder itself (`Header.retrieve`) is a parameter; when it yields no
header object, `_real_get_contents` returns early and `reset()` then
touches the never-assigned `self.files`, an `AttributeError`. -/
def openArchive (decodeHeader : List Nat → Option Header) (filename : Option String)
    (data : List Nat) : Except PyError Archive :=
  if ¬ checkMagic data then .error PyError.notSevenZ
  else
    match sigHeaderRetrieve data with
    | .error e => .error e
    | .ok sig =>
      match readHeaderData data sig 32 with
      | .error e => .error e
      | .ok buffer =>
        match decodeHeader buffer with
        | none => .error PyError.attributeError
        | some hdr =>
          .ok { data, filename, sig, afterheader := 32, header := hdr,
                files := filelistRetrieve filename 32 hdr }

/-- Modelled from the spec: the metadata decoder `Header.retrieve` of
`py7zr.archiveinfo` (not in src/), on the one input these theorems use.
§4.2 reads the blob as a sequence of tagged sections; an empty blob
contains no sections, so the decoded header has neither `main_streams`
nor `files_info` (scenario S1).  Non-empty blobs are outside the scope of
this file and are not modelled. -/
def specHeaderDecode (buffer : List Nat) : Option Header :=
  if buffer.isEmpty then some {} else none

/-- `SevenZipFile.getnames` (py7zr.py:596-600). -/
def getnames (a : Archive) : List String := a.files.map (fun f => f.filename)

/-- `SevenZipFile.list` (py7zr.py:607-616). -/
def listContents (conv : Nat → Nat) (a : Archive) : List PyFileInfo :=
  listLoop conv none a.files

/-! ### The integrity test (py7zr.py:485-520 and 618-620) -/

/-- `Configuration.read_blocksize` from `py7zr.properties` (not in src/);
modelled as the 32 KiB block size of the reference implementation.  The
theorems below do not depend on its value, only on its positivity. -/
def read_blocksize : Nat := 32768

/-- The `while remaining_size > 0` loop of `_test_digest_raw`
(py7zr.py:487-492), reading consecutive blocks at the file cursor and
chaining `calculate_crc32`.  The fuel argument bounds the iteration
count; each iteration consumes `min read_blocksize remaining ≥ 1` of the
remaining size, so fuel = remaining size suffices. -/
def crcDigestLoopF (data : List Nat) : Nat → Nat → Nat → Option Nat → Option Nat
  | 0, _, _, digest => digest
  | fuel + 1, pos, r, digest =>
    if r = 0 then digest
    else
      crcDigestLoopF data fuel (pos + min read_blocksize r) (r - min read_blocksize r)
        (some (calculate_crc32 ((data.drop pos).take (min read_blocksize r)) digest))

/-- The block loop of `_test_digest_raw` with its natural fuel. -/
def crcDigestLoop (data : List Nat) (pos r : Nat) (digest : Option Nat) : Option Nat :=
  crcDigestLoopF data r pos r digest

/-- `SevenZipFile._test_digest_raw` (py7zr.py:485-493): CRC the `size`
bytes at `pos` blockwise and compare with `crc`; the initial digest is
`None`, so a zero-size stream compares `None == crc`, which is `False`
in Python. -/
def testDigestRaw (data : List Nat) (pos size crc : Nat) : Bool :=
  match crcDigestLoop data pos size none with
  | none => false
  | some d => d == crc

/-- Modelled from the spec: `PackInfo.packpositions` of
`py7zr.archiveinfo` (not in src/).  §3: pack streams are laid out
contiguously starting at `pack_start`, itself relative to the end of the
32-byte signature header, so stream `i` begins at
`32 + packpos + sum of the sizes before it`. -/
def packStreamPos (pi : PackInfo) (afterheader i : Nat) : Nat :=
  afterheader + pi.packpos + ((pi.packsizes.take i).sum)

/-- The `for i, p in enumerate(packpositions)` loop of
`_test_pack_digest` (py7zr.py:500-502): stop with `False` at the first
stream whose raw digest check fails. -/
def packDigestLoop (data : List Nat) (packsizes crcs : List Nat) :
    Nat → List Nat → Bool
  | _, [] => true
  | i, p :: ps =>
    if testDigestRaw data p (packsizes.getD i 0) (crcs.getD i 0) then
      packDigestLoop data packsizes crcs (i + 1) ps
    else false

/-- `SevenZipFile._test_pack_digest` (py7zr.py:495-503): nothing to check
when the header carries no pack CRCs; otherwise every pack stream's CRC
must match.  (The `self.reset()` call only reseeks and rebuilds the
worker.)  Reading `main_streams` off a header without one is an
`AttributeError`. -/
def testPackDigest (a : Archive) : Except PyError Bool :=
  match a.header.main_streams with
  | none => .error PyError.attributeError
  | some ms =>
    match ms.packinfo.crcs with
    | none => .ok true
    | some crcs =>
      if crcs.length = 0 then .ok true
      else
        .ok (packDigestLoop a.data ms.packinfo.packsizes crcs 0
          ((List.range ms.packinfo.numstreams).map
            (packStreamPos ms.packinfo a.afterheader)))

/-- `SevenZipFile._test_unpack_digest` (py7zr.py:505-514): run the worker
with discard sinks; a `Bad7zFile` from it (the per-folder corruption) is
caught and becomes `False`, success is `True`, and any other exception
propagates. -/
def testUnpackDigest (a : Archive) : Except PyError Bool :=
  match a.testExtractOutcome with
  | none => .ok true
  | some e => if e.isBad7zFile then .ok false else .error e

/-- `SevenZipFile._test_digests` (py7zr.py:516-520): the pack check runs
first and short-circuits the unpack check. -/
def testDigests (a : Archive) : Except PyError Bool :=
  match testPackDigest a with
  | .error e => .error e
  | .ok p =>
    if p then
      match testUnpackDigest a with
      | .error e => .error e
      | .ok u => .ok (if u then true else false)
    else .ok false

/-- `SevenZipFile.test` (py7zr.py:618-620). -/
def testArchive (a : Archive) : Except PyError Bool := testDigests a

/-- Decidable equality of `Except` results, for evaluating the embedded
operations on concrete archives. -/
instance {e a : Type} [DecidableEq e] [DecidableEq a] : DecidableEq (Except e a) := fun x y =>
  match x, y with
  | .ok u, .ok v =>
    if h : u = v then .isTrue (by rw [h]) else .isFalse (by intro hc; cases hc; exact h rfl)
  | .error u, .error v =>
    if h : u = v then .isTrue (by rw [h]) else .isFalse (by intro hc; cases hc; exact h rfl)
  | .ok _, .error _ => .isFalse (by intro hc; cases hc)
  | .error _, .ok _ => .isFalse (by intro hc; cases hc)

/-! ### Concrete archives used by the counterexamples and witnesses -/

/-- Little-endian 4-byte encoding. -/
def le32 (n : Nat) : List Nat :=
  [n % 256, n / 256 % 256, n / 65536 % 256, n / 16777216 % 256]

/-- The 20 bytes following the start-header CRC in the minimal empty
archive: next_header_offset = 0, next_header_size = 0,
next_header_crc = 0 (the CRC32 of zero bytes). -/
def emptyStartHeader : List Nat := List.replicate 20 0

/-- Scenario S1: the minimal empty archive: magic, version 0.4, a valid
start-header CRC, and a zeroed next-header triple with
`next_header_size = 0`. -/
def emptyArchiveBytes : List Nat :=
  MAGIC_7Z ++ [0, 4] ++ le32 (calculate_crc32 emptyStartHeader none) ++ emptyStartHeader

/-- A signature-header tail whose `next_header_crc` field is 1, which can
never match the CRC32 of the empty metadata blob (that CRC is 0). -/
def badCrcStartHeader : List Nat :=
  List.replicate 8 0 ++ List.replicate 8 0 ++ le32 1

/-- An archive whose signature header is valid but whose stored
next-header CRC (1) mismatches the freshly read metadata bytes. -/
def badCrcArchiveBytes : List Nat :=
  MAGIC_7Z ++ [0, 4] ++ le32 (calculate_crc32 badCrcStartHeader none) ++ badCrcStartHeader

/-- The signature header decoded from `badCrcArchiveBytes`. -/
def badCrcSig : SigHeader :=
  { version_major := 0, version_minor := 4,
    startheadercrc := calculate_crc32 badCrcStartHeader none,
    nextheaderofs := 0, nextheadersize := 0, nextheadercrc := 1 }

/-- One solid folder: one pack stream of size 5, one folder with a single
one-input coder, two substreams of sizes 3 and 5. -/
def solidStreams : StreamsInfo :=
  { packinfo := { packpos := 0, packsizes := [5], numstreams := 1, crcs := none },
    unpackinfo := { folders := [{ coders := [{}], unpacksizes := [8] }], numfolders := 1 },
    substreamsinfo := { num_unpackstreams_folders := [2], unpacksizes := some [3, 5],
                        digestsdefined := [false, false], digests := [] } }

/-- Two non-empty records for the solid folder. -/
def solidFilesInfo : FilesInfo :=
  { files := [{ filename := some "a", emptystream := false },
              { filename := some "b", emptystream := false }] }

/-- A header with one solid folder holding two files. -/
def solidHdr : Header :=
  { main_streams := some solidStreams, files_info := some solidFilesInfo }

/-- The second record reconstructed from `solidHdr`: part of a solid
folder, so its compressed size is `None`. -/
def solidOut1 : OutFile :=
  { filename := "b", emptystream := false, compressed := none, uncompressed := [5],
    packsizes := [5], maxsize := some 5, folder := some 0, digest := none }

/-- Two single-substream folders with two pack streams; folder 0 has two
coders (so a single substream size 7 is replicated twice), folder 1 has
one coder. -/
def plainStreams : StreamsInfo :=
  { packinfo := { packpos := 0, packsizes := [5, 6], numstreams := 2, crcs := none },
    unpackinfo := { folders :=
      [{ coders := [{}, {}], unpacksizes := [7, 7] },
       { coders := [{}], unpacksizes := [9] }], numfolders := 2 },
    substreamsinfo := { num_unpackstreams_folders := [1, 1], unpacksizes := some [7, 9],
                        digestsdefined := [false, false], digests := [] } }

/-- One named and one nameless non-empty record. -/
def plainFilesInfo : FilesInfo :=
  { files := [{ filename := some "a", emptystream := false },
              { filename := none, emptystream := false }] }

/-- A header with two single-substream folders holding one file each. -/
def plainHdr : Header :=
  { main_streams := some plainStreams, files_info := some plainFilesInfo }

/-- The first record reconstructed from `plainHdr`: its single substream
size 7 is replicated over the folder's two coders. -/
def plainOut0 : OutFile :=
  { filename := "a", emptystream := false, compressed := some (CompVal.int 5),
    uncompressed := [7, 7], packsizes := [5], maxsize := none, folder := some 0,
    digest := none }

/-- An entry whose Windows attributes carry the DIRECTORY bit although its
stream is not empty. -/
def dirBitFile : OutFile := { filename := "d", emptystream := false, attributes := some 0x10 }

/-- An empty-stream entry whose attributes carry only the POSIX
UNIX_EXTENSION mode of a directory (`S_IFDIR` in the high 16 bits),
without the Windows DIRECTORY bit. -/
def posixDirFile : OutFile :=
  { filename := "p", emptystream := true,
    attributes := some (FileAttribute.UNIX_EXTENSION ||| (S_IFDIR <<< 16)) }

/-- A two-folder, two-pack-stream streams record for the `extractall`
theorems. -/
def twoFolderStreams : StreamsInfo :=
  { packinfo := { packpos := 0, packsizes := [1, 1], numstreams := 2, crcs := none },
    unpackinfo := { folders := [{ coders := [{}], unpacksizes := [1] },
                                { coders := [{}], unpacksizes := [1] }], numfolders := 2 },
    substreamsinfo := { num_unpackstreams_folders := [1, 1], unpacksizes := some [1, 1],
                        digestsdefined := [false, false], digests := [] } }

/-- A header wrapping `twoFolderStreams`. -/
def twoFolderHdr : Header := { main_streams := some twoFolderStreams, files_info := none }

/-- A directory entry and a regular file that share the name `x`: the
directory is never registered with the worker, so the registered output
paths stay distinct. -/
def dupNameFiles : List OutFile :=
  [{ filename := "x", emptystream := true, attributes := some 0x10 },
   { filename := "x", emptystream := false, attributes := some 0 }]

/-- Two regular files with distinct names. -/
def distinctNameFiles : List OutFile :=
  [{ filename := "a", emptystream := false, attributes := some 0 },
   { filename := "b", emptystream := false, attributes := some 0 }]

/-- An entry whose name starts with `../`. -/
def escapeFile : OutFile := { filename := "../evil", emptystream := false, attributes := some 0 }

/-- An archive with one pack stream `[1, 2]` at position 32 whose stored
pack CRC matches. -/
def crcOkStreams : StreamsInfo :=
  { packinfo := { packpos := 0, packsizes := [2], numstreams := 1,
                  crcs := some [calculate_crc32 [1, 2] none] },
    unpackinfo := { folders := [{ coders := [{}], unpacksizes := [2] }], numfolders := 1 },
    substreamsinfo := { num_unpackstreams_folders := [1], unpacksizes := some [2],
                        digestsdefined := [true], digests := [0] } }

/-- The archive handle around `crcOkStreams`. -/
def crcOkArchive : Archive :=
  { data := List.replicate 32 0 ++ [1, 2],
    header := { main_streams := some crcOkStreams, files_info := none },
    testExtractOutcome := none }

/-- Partial sums of the per-folder substream counts. -/
def snuAt (ctx : RetrCtx) (k : Nat) : Nat := (ctx.numunpack.take k).sum

/-- The loop invariant of `_filelist_retrieve`: how the cursor variables
of the state relate to the records already emitted (`pre`). -/
structure RetrInv (ctx : RetrCtx) (st : RetrState) (pre : List OutFile) : Prop where
  i1 : st.output_binary_index = pre.countP (fun o => o.folder.isSome)
  i2 : st.instreamindex = cursorAt ctx st.folder_index
  i3 : snuAt ctx st.folder_index + st.streamidx = st.output_binary_index
  i4 : st.folder_index ≤ ctx.folders.length
  i5 : st.folder_index < ctx.folders.length → st.streamidx < nuAt ctx st.folder_index
  i7 : pre.countP (fun o => o.folder == some st.folder_index) = st.streamidx
  i8 : ∀ o ∈ pre, ∀ k, o.folder = some k → k ≤ st.folder_index
  i9 : 0 < st.streamidx →
    st.solids.getD st.folder_index false = decide (1 < nuAt ctx st.folder_index)
  i10 : st.file_in_solid =
    if 0 < st.streamidx ∧ 1 < nuAt ctx st.folder_index then 1 else 0
  i11 : st.solids.length = ctx.folders.length

/-- No filename of the list occurs twice nor in `seen`: the condition
under which the duplicate-name check of py7zr.py:658-659 never fires. -/
def newNamesOk (seen : List String) : List OutFile → Bool
  | [] => true
  | f :: fs => !(seen.contains f.filename) && newNamesOk (seen ++ [f.filename]) fs

/-- The plan produced for `distinctNameFiles` under `twoFolderHdr`. -/
def distinctPlan : ExtractPlan :=
  { multi_thread := true, fnames := ["a", "b"], target_dirs := [],
    target_files := ["a", "b"], target_sym := [], registered := [(0, "a"), (1, "b")] }

/-! ## Theorems -/

/-! ### C6: the directory test -/

/-- Claim C6 (counterexample): `is_directory` is not the claimed
conjunction.  An entry whose attributes carry the DIRECTORY bit but whose
stream is not empty is reported as a directory although the claim's
predicate rejects it, and an empty-stream entry carrying only the POSIX
`S_IFDIR` mode is not reported as a directory although the claim's
predicate accepts it. -/
theorem C6_counterexample :
    isDirectory dirBitFile = true ∧ specIsDirectory dirBitFile = false ∧
    isDirectory posixDirFile = false ∧ specIsDirectory posixDirFile = true := by
  refine ⟨rfl, rfl, rfl, rfl⟩

/-- Claim C6 (amended): for every archive entry, `is_directory` is true
if and only if the entry's attributes are present and have the Windows
DIRECTORY bit (0x10) set; the empty-stream flag and the POSIX
UNIX_EXTENSION file type play no role. -/
theorem C6_is_directory_amended (f : OutFile) :
    isDirectory f = true ↔ ∃ a, f.attributes = some a ∧ a &&& 0x10 = 0x10 := by
  unfold isDirectory testAttribute FileAttribute.DIRECTORY
  cases h : f.attributes with
  | none => simp
  | some a => simp [h]

/-! ### C5: the next-header CRC check -/

/-- Claim C5: in read mode, once the magic matched and the signature
header parsed, a mismatch between the stored `next_header_crc` and the
CRC32 of the freshly read metadata bytes makes the open fail with
`Corrupt`, so no archive handle is produced. -/
theorem C5_next_header_crc (decodeHeader : List Nat → Option Header)
    (filename : Option String) (data : List Nat) (sig : SigHeader)
    (hmagic : checkMagic data = true)
    (hsig : sigHeaderRetrieve data = .ok sig)
    (hcrc : sig.nextheadercrc ≠
      calculate_crc32 ((data.drop (32 + sig.nextheaderofs)).take sig.nextheadersize) none) :
    openArchive decodeHeader filename data = .error PyError.corrupt := by
  simp [openArchive, readHeaderData, hmagic, hsig, hcrc]

/-- Claim C5 (witness): a concrete archive whose signature header parses
but whose stored next-header CRC is 1 while the empty metadata blob's
CRC is 0 fails to open with `Corrupt`. -/
theorem C5_witness :
    checkMagic badCrcArchiveBytes = true ∧
    sigHeaderRetrieve badCrcArchiveBytes = .ok badCrcSig ∧
    badCrcSig.nextheadercrc ≠
      calculate_crc32 ((badCrcArchiveBytes.drop (32 + badCrcSig.nextheaderofs)).take
        badCrcSig.nextheadersize) none ∧
    openArchive specHeaderDecode none badCrcArchiveBytes = .error PyError.corrupt :=
  ⟨by decide, by decide, by decide,
    C5_next_header_crc specHeaderDecode none badCrcArchiveBytes badCrcSig
      (by decide) (by decide) (by decide)⟩

/-! ### C4: the minimal empty archive -/

/-- Claim C4 (evaluation at the failing input): opening the minimal
empty archive succeeds and `names()` and `list()` both return the empty
list, but `test()` does not return true: `_test_pack_digest`
dereferences `self.header.main_streams`, which an empty metadata blob
never produced, so `test()` raises `AttributeError`. -/
theorem C4_empty_archive_eval :
    ((openArchive specHeaderDecode (some "archive.7z") emptyArchiveBytes).toOption.map
      (fun a => (getnames a, listContents id a))) = some ([], []) ∧
    ((openArchive specHeaderDecode (some "archive.7z") emptyArchiveBytes).toOption.map
      (fun a => testArchive a)) = some (Except.error PyError.attributeError) :=
  ⟨by decide, by decide⟩

/-! ### C2: rejection of `../` names -/

/-- The registration loop of `extractall` fails with `PathEscape` as soon
as any remaining entry's name starts with `../`, whatever the
accumulated plan is. -/
theorem extractLoop_escape (fsExists : String → Bool) (path : Option String) :
    ∀ (fs : List OutFile) (fid : Nat) (st : ExtractPlan) (f : OutFile), f ∈ fs →
      pyStartswith f.filename "../" = true →
      extractLoop fsExists path fid st fs = .error PyError.pathEscape := by
  intro fs
  induction fs with
  | nil => intro _ _ f h _; cases h
  | cons g gs ih =>
    intro fid st f hmem hesc
    cases hg : pyStartswith g.filename "../" with
    | true => simp [extractLoop, hg]
    | false =>
      have hfg : f ∈ gs := by
        cases hmem with
        | head => rw [hesc] at hg; cases hg
        | tail _ h => exact h
      simp only [extractLoop, hg, Bool.false_eq_true, if_false]
      exact ih (fid + 1) _ f hfg hesc

/-- Claim C2: when an archive (with main streams) contains an entry whose
name begins with `../`, `extractall` fails with `PathEscape` before any
directory is made, any file written or any symlink placed, so the entry
is never extracted. -/
theorem C2_path_escape (fsExists : String → Bool) (path : Option String)
    (hdr : Header) (ms : StreamsInfo) (files : List OutFile) (f : OutFile)
    (hms : hdr.main_streams = some ms) (hf : f ∈ files)
    (hesc : pyStartswith f.filename "../" = true) :
    extractall fsExists path hdr files = .error PyError.pathEscape ∧
    createdPaths path (extractall fsExists path hdr files) = [] := by
  have h1 : extractall fsExists path hdr files = .error PyError.pathEscape := by
    unfold extractall
    rw [hms]
    exact extractLoop_escape fsExists path files 0 _ f hf hesc
  exact ⟨h1, by rw [h1]; rfl⟩

/-- Claim C2 (witness): a concrete archive containing the entry `../evil`
fails with `PathEscape` and creates nothing. -/
theorem C2_witness :
    twoFolderHdr.main_streams = some twoFolderStreams ∧
    escapeFile ∈ [escapeFile] ∧
    pyStartswith escapeFile.filename "../" = true ∧
    (extractall (fun _ => false) none twoFolderHdr [escapeFile] = .error PyError.pathEscape ∧
      createdPaths none (extractall (fun _ => false) none twoFolderHdr [escapeFile]) = []) :=
  ⟨rfl, List.mem_singleton.mpr rfl, by decide,
    C2_path_escape (fun _ => false) none twoFolderHdr twoFolderStreams [escapeFile]
      escapeFile rfl (List.mem_singleton.mpr rfl) (by decide)⟩

/-! ### C8: names for nameless records -/

/-- Whatever the loop state, a reconstructed record's filename is the
record's own name, or the generated one when the record has none. -/
theorem filelistStep_fst_filename (ctx : RetrCtx) (hasFolders : Bool) (fid : Nat)
    (f : FileRec) (st : RetrState) :
    (filelistStep ctx hasFolders fid f st).1.filename =
      match f.filename with
      | some n => n
      | none => generateFilename ctx.basefilename := by
  unfold filelistStep filelistStepStream filelistStepEmpty
  split <;> rfl

/-- The filenames produced by the reconstruction loop, positionally. -/
theorem filelistLoop_map_filename (ctx : RetrCtx) (hasFolders : Bool) :
    ∀ (fs : List FileRec) (fid : Nat) (st : RetrState),
    (filelistLoop ctx hasFolders fid st fs).map (fun o => o.filename) =
      fs.map (fun f => match f.filename with
        | some n => n
        | none => generateFilename ctx.basefilename) := by
  intro fs
  induction fs with
  | nil => intro _ _; rfl
  | cons f fs ih =>
    intro fid st
    simp only [filelistLoop, List.map_cons, filelistStep_fst_filename, ih]

/-- The context keeps the archive's base filename unchanged. -/
theorem mkRetrCtx_basefilename (basefilename : Option String) (hdr : Header) :
    (mkRetrCtx basefilename hdr).1.basefilename = basefilename := by
  unfold mkRetrCtx
  cases hdr.main_streams <;> rfl

/-- Claim C8: every record parsed without a name is assigned
`generateFilename basefilename`, which is the archive's base file name
with its extension removed, or the literal `contents` when the archive
has no name; records with a name keep it. -/
theorem C8_nameless_records (basefilename : Option String) (afterheader : Nat)
    (hdr : Header) (finfo : FilesInfo) (hfi : hdr.files_info = some finfo) :
    (filelistRetrieve basefilename afterheader hdr).map (fun o => o.filename) =
      finfo.files.map (fun f => match f.filename with
        | some n => n
        | none => generateFilename basefilename) := by
  unfold filelistRetrieve
  rw [hfi]
  simp only [filelistLoop_map_filename, mkRetrCtx_basefilename]

/-- Claim C8 (witness): on a concrete archive named `path/to/archive.7z`
whose second record has no name, the second reconstructed file is named
`archive` (base name, extension removed); with no archive name it would
be `contents`. -/
theorem C8_witness :
    plainHdr.files_info = some { files :=
      [{ filename := some "a", emptystream := false },
       { filename := none, emptystream := false }] } ∧
    (filelistRetrieve (some "path/to/archive.7z") 32 plainHdr).map (fun o => o.filename) =
      ["a", "archive"] ∧
    generateFilename none = "contents" := by
  refine ⟨rfl, ?_, by decide⟩
  rw [C8_nameless_records (some "path/to/archive.7z") 32 plainHdr _ rfl]
  decide

/-! ### C9: inherited times in `list()` -/

/-- `getLast?` of a cons, by cases on the tail's `getLast?`. -/
theorem getLast?_cons_match {α : Type} (a : α) (l : List α) :
    (a :: l).getLast? = match l.getLast? with
      | some x => some x
      | none => some a := by
  cases l with
  | nil => rfl
  | cons b l2 =>
    rw [List.getLast?_cons_cons]
    cases h : (b :: l2).getLast? with
    | some x => rfl
    | none => exact absurd (List.getLast?_eq_none_iff.mp h) (by simp)

/-- The reported time of the `i`-th entry of the `list()` loop is the
conversion of the last `lastwritetime` among the first `i + 1` entries,
or the incoming accumulator when none of them has one. -/
theorem listLoop_creationtime (conv : Nat → Nat) :
    ∀ (fs : List OutFile) (ct : Option Nat) (i : Nat), i < fs.length →
    ((listLoop conv ct fs).get? i).map (fun x => x.creationtime) =
      some (match ((fs.take (i + 1)).filterMap (fun f => f.lastwritetime)).getLast? with
        | some t => some (conv t)
        | none => ct) := by
  intro fs
  induction fs with
  | nil => intro ct i hi; exact absurd hi (Nat.not_lt_zero i)
  | cons f fs ih =>
    intro ct i hi
    cases i with
    | zero =>
      simp only [listLoop, List.get?, Option.map_some, List.take, List.filterMap_cons]
      cases hlw : f.lastwritetime with
      | none => simp [hlw]
      | some t => simp [hlw]
    | succ j =>
      have hj : j < fs.length := Nat.lt_of_succ_lt_succ hi
      simp only [listLoop, List.get?]
      rw [ih _ j hj]
      cases hlw : f.lastwritetime with
      | none =>
        simp only [List.take, List.filterMap_cons, hlw]
      | some t =>
        simp only [List.take, List.filterMap_cons, hlw]
        rw [getLast?_cons_match]
        cases ((fs.take (j + 1)).filterMap (fun f => f.lastwritetime)).getLast? <;> rfl

/-- Claim C9: in `list()`, an entry whose `lastwritetime` is absent
reports the converted `lastwritetime` of the nearest preceding entry
that has one, and `none` when no preceding entry has one; it is never
derived from the entry itself. -/
theorem C9_inherited_time (conv : Nat → Nat) (files : List OutFile) (i : Nat)
    (hi : i < files.length)
    (hnone : (files.getD i {}).lastwritetime = none) :
    ((listLoop conv none files).get? i).map (fun x => x.creationtime) =
      some ((((files.take i).filterMap (fun f => f.lastwritetime)).getLast?).map conv) := by
  rw [listLoop_creationtime conv files none i hi]
  have htake : files.take (i + 1) = files.take i ++ [files.getD i {}] := by
    rw [List.getD_eq_getElem?_getD, List.take_succ]
    congr 1
    cases h : files[i]? with
    | none => exact absurd (List.getElem?_eq_none_iff.mp h) (Nat.not_le_of_lt hi)
    | some v => rfl
  rw [htake, List.filterMap_append]
  simp only [List.filterMap_cons, hnone, List.filterMap_nil, List.append_nil]
  cases ((files.take i).filterMap (fun f => f.lastwritetime)).getLast? <;> rfl

/-- Claim C9 (witness): with conversion `Nat.succ`, the second entry
(no `lastwritetime`) reports the converted time of the first, and a
first entry with no `lastwritetime` would report `none`. -/
theorem C9_witness :
    ([{ filename := "a", lastwritetime := some 7 },
      { filename := "b", lastwritetime := none }].getD 1 ({} : OutFile)).lastwritetime
        = none ∧
    ((listLoop Nat.succ none
        [{ filename := "a", lastwritetime := some 7 },
         { filename := "b", lastwritetime := none }]).get? 1).map
      (fun x => x.creationtime) = some (some 8) := by
  refine ⟨by decide, ?_⟩
  rw [C9_inherited_time Nat.succ
    [{ filename := "a", lastwritetime := some 7 },
     { filename := "b", lastwritetime := none }] 1 (by decide) (by decide)]
  decide


/-! ### C3: the integrity test -/

/-- XOR with the 32-bit mask twice is the identity. -/
theorem xor_mask_cancel (x : Nat) : (x ^^^ 0xFFFFFFFF) ^^^ 0xFFFFFFFF = x := by
  rw [Nat.xor_assoc, Nat.xor_self, Nat.xor_zero]

/-- The modelled CRC32 is incremental across an arbitrary split, the
property §4.5 demands and the block loop of `_test_digest_raw` relies
on. -/
theorem calculate_crc32_append (a b : List Nat) (v : Option Nat) :
    calculate_crc32 (a ++ b) v = calculate_crc32 b (some (calculate_crc32 a v)) := by
  simp only [calculate_crc32, crc32raw, List.foldl_append, Option.getD_some]
  rw [xor_mask_cancel]

/-- With the remaining size zero the block loop returns its digest. -/
theorem crcDigestLoopF_zero (data : List Nat) (fuel pos : Nat) (v : Option Nat) :
    crcDigestLoopF data fuel pos 0 v = v := by
  cases fuel <;> rfl

/-- With enough fuel and a positive size, the block loop of
`_test_digest_raw` computes the one-shot CRC32 of the whole range. -/
theorem crcDigestLoopF_eq (data : List Nat) :
    ∀ (fuel pos r : Nat) (v : Option Nat), 0 < r → r ≤ fuel →
    crcDigestLoopF data fuel pos r v =
      some (calculate_crc32 ((data.drop pos).take r) v) := by
  intro fuel
  induction fuel with
  | zero => intro pos r v hr hle; omega
  | succ fuel ih =>
    intro pos r v hr hle
    unfold crcDigestLoopF
    rw [if_neg (Nat.pos_iff_ne_zero.mp hr)]
    obtain ⟨k, hk⟩ : ∃ k, min read_blocksize r = k := ⟨_, rfl⟩
    rw [hk]
    have hble : k ≤ r := hk ▸ Nat.min_le_right read_blocksize r
    have hbpos : 0 < k := hk ▸ lt_min (by norm_num [read_blocksize]) hr
    by_cases hcase : r ≤ k
    · have hbr : k = r := Nat.le_antisymm hble hcase
      rw [hbr, Nat.sub_self, crcDigestLoopF_zero]
    · push_neg at hcase
      have h1 : 0 < r - k := by clear hk ih; omega
      have h2 : r - k ≤ fuel := by clear hk ih; omega
      rw [ih (pos + k) _ _ h1 h2, ← calculate_crc32_append]
      congr 1
      have hdd : data.drop (pos + k) = (data.drop pos).drop k := by
        rw [List.drop_drop]
      rw [hdd, ← List.take_add, Nat.add_sub_cancel' hble]

/-- `_test_digest_raw` on a positive size is the plain CRC32 comparison
over the `size` bytes at `pos`. -/
theorem testDigestRaw_eq (data : List Nat) (pos size crc : Nat) (hpos : 0 < size) :
    testDigestRaw data pos size crc =
      (calculate_crc32 ((data.drop pos).take size) none == crc) := by
  unfold testDigestRaw crcDigestLoop
  rw [crcDigestLoopF_eq data size pos size none hpos (Nat.le_refl size)]

/-- Congruence for `List.all` under a pointwise-on-members equality. -/
theorem all_congrOn {α : Type} (pb qb : α → Bool) :
    ∀ xs : List α, (∀ x ∈ xs, pb x = qb x) → xs.all pb = xs.all qb := by
  intro xs
  induction xs with
  | nil => exact fun _ => rfl
  | cons y ys ihy =>
    intro hxy
    rw [List.all_cons, List.all_cons, hxy y (List.mem_cons_self y ys),
      ihy (fun z hz => hxy z (List.mem_cons_of_mem y hz))]

/-- The enumerated loop of `_test_pack_digest` succeeds exactly when the
CRC32 of every stream's byte range matches the stored CRC, whenever all
the involved sizes are positive. -/
theorem packDigestLoop_all (data packsizes crcs : List Nat) :
    ∀ (ps : List Nat) (i : Nat),
      (∀ j, j < ps.length → 0 < packsizes.getD (i + j) 0) →
      packDigestLoop data packsizes crcs i ps =
        (List.range ps.length).all (fun j =>
          calculate_crc32 ((data.drop (ps.getD j 0)).take (packsizes.getD (i + j) 0)) none
            == crcs.getD (i + j) 0) := by
  intro ps
  induction ps with
  | nil => intro i _; rfl
  | cons p ps ih =>
    intro i hpos
    have h0 : 0 < packsizes.getD (i + 0) 0 := hpos 0 (Nat.succ_pos _)
    rw [Nat.add_zero] at h0
    simp only [packDigestLoop, List.length_cons, List.range_succ_eq_map, List.all_cons,
      List.all_map, List.getD_cons_zero, Nat.add_zero]
    rw [testDigestRaw_eq data p _ _ h0]
    cases htest : (calculate_crc32 ((data.drop p).take (packsizes.getD i 0)) none
        == crcs.getD i 0) with
    | false => simp
    | true =>
      simp only [if_pos rfl, Bool.true_and]
      rw [ih (i + 1) (fun j hj => by
        have h3 := hpos (j + 1) (Nat.succ_lt_succ hj)
        rwa [Nat.add_succ, ← Nat.succ_add] at h3)]
      apply all_congrOn
      intro j hj
      simp only [Function.comp, List.getD_cons_succ]
      rw [show i + (j + 1) = i + 1 + j by omega]

/-- Claim C3: for an opened archive with main streams whose pack-CRC
vector (when present) has one entry per stream, with positive pack
sizes, and whose test-time decompression either succeeds or reports
per-folder corruption (`Bad7zFile`): `test()` returns, without raising,
`false` exactly when some pack-stream CRC mismatches or the
decompression reported corruption, and `true` otherwise. -/
theorem C3_test_digests (a : Archive) (ms : StreamsInfo)
    (hms : a.header.main_streams = some ms)
    (hnum : ms.packinfo.numstreams = ms.packinfo.packsizes.length)
    (hlen : ∀ cs, ms.packinfo.crcs = some cs → cs.length = ms.packinfo.numstreams)
    (hsz : ∀ s ∈ ms.packinfo.packsizes, 0 < s)
    (hout : a.testExtractOutcome = none ∨ a.testExtractOutcome = some PyError.corrupt) :
    testArchive a = .ok
      ((match ms.packinfo.crcs with
        | none => true
        | some crcs => (List.range ms.packinfo.numstreams).all (fun i =>
            calculate_crc32 ((a.data.drop (packStreamPos ms.packinfo a.afterheader i)).take
              (ms.packinfo.packsizes.getD i 0)) none == crcs.getD i 0))
        && (a.testExtractOutcome == none)) := by
  have hunpack : testUnpackDigest a = .ok (a.testExtractOutcome == none) := by
    cases hout with
    | inl h => rw [testUnpackDigest, h]; rfl
    | inr h => rw [testUnpackDigest, h]; rfl
  have hpack : testPackDigest a = .ok
      (match ms.packinfo.crcs with
       | none => true
       | some crcs => (List.range ms.packinfo.numstreams).all (fun i =>
           calculate_crc32 ((a.data.drop (packStreamPos ms.packinfo a.afterheader i)).take
             (ms.packinfo.packsizes.getD i 0)) none == crcs.getD i 0)) := by
    unfold testPackDigest
    rw [hms]
    cases hcrcs : ms.packinfo.crcs with
    | none => simp [hcrcs]
    | some crcs =>
      simp only [hcrcs]
      by_cases hzero : crcs.length = 0
      · have hn0 : ms.packinfo.numstreams = 0 := by rw [← hlen crcs hcrcs, hzero]
        simp [hzero, hn0]
      · simp only [if_neg hzero]
        rw [packDigestLoop_all a.data ms.packinfo.packsizes crcs _ 0 (fun j hj => by
          have hj2 : j < ms.packinfo.packsizes.length := by
            simpa [hnum, List.length_map, List.length_range] using hj
          rw [Nat.zero_add, List.getD_eq_getElem?_getD, List.getElem?_eq_getElem hj2]
          exact hsz _ (List.getElem_mem hj2))]
        rw [List.length_map, List.length_range]
        congr 1
        apply all_congrOn
        intro j hj
        rw [List.mem_range] at hj
        have hps : ((List.range ms.packinfo.numstreams).map
            (packStreamPos ms.packinfo a.afterheader)).getD j 0 =
              packStreamPos ms.packinfo a.afterheader j := by
          rw [List.getD_eq_getElem?_getD, List.getElem?_map, List.getElem?_range hj]
          rfl
        rw [Nat.zero_add, hps]
  rw [testArchive, testDigests, hpack, hunpack]
  cases hp : (match ms.packinfo.crcs with
      | none => true
      | some crcs => (List.range ms.packinfo.numstreams).all (fun i =>
          calculate_crc32 ((a.data.drop (packStreamPos ms.packinfo a.afterheader i)).take
            (ms.packinfo.packsizes.getD i 0)) none == crcs.getD i 0)) with
  | true => cases h2 : (a.testExtractOutcome == none) <;> simp [h2]
  | false => simp

/-- Claim C3 (witness): an archive with one pack stream whose CRC
matches and whose decompression succeeds tests `true`. -/
theorem C3_witness :
    crcOkArchive.header.main_streams = some crcOkStreams ∧
    crcOkStreams.packinfo.numstreams = crcOkStreams.packinfo.packsizes.length ∧
    (∀ s ∈ crcOkStreams.packinfo.packsizes, 0 < s) ∧
    crcOkArchive.testExtractOutcome = none ∧
    testArchive crcOkArchive = .ok true := by
  refine ⟨rfl, by decide, by decide, rfl, ?_⟩
  have h := C3_test_digests crcOkArchive crcOkStreams rfl (by decide)
    (fun cs hcs => by
      have h3 : some [calculate_crc32 [1, 2] none] = some cs := hcs
      cases h3
      rfl)
    (by decide) (Or.inl rfl)
  rw [h]
  decide

/-! ### C7: the multithread decision -/

/-- Queueing an entry leaves the `multi_thread` flag unchanged. -/
theorem extractQueue_multi_thread (fsExists : String → Bool) (fid : Nat) (f : OutFile)
    (o : String) (st1 : ExtractPlan) :
    (extractQueue fsExists fid f o st1).multi_thread = st1.multi_thread := by
  unfold extractQueue
  split
  · split <;> rfl
  · split
    · rfl
    · split <;> rfl

/-- Queueing an entry leaves the accumulated filename list unchanged. -/
theorem extractQueue_fnames (fsExists : String → Bool) (fid : Nat) (f : OutFile)
    (o : String) (st1 : ExtractPlan) :
    (extractQueue fsExists fid f o st1).fnames = st1.fnames := by
  unfold extractQueue
  split
  · split <;> rfl
  · split
    · rfl
    · split <;> rfl

/-- Queueing an entry either keeps the registered list or appends the
entry's `(id, output path)` pair. -/
theorem extractQueue_registered (fsExists : String → Bool) (fid : Nat) (f : OutFile)
    (o : String) (st1 : ExtractPlan) :
    (extractQueue fsExists fid f o st1).registered = st1.registered ∨
      (extractQueue fsExists fid f o st1).registered = st1.registered ++ [(fid, o)] := by
  unfold extractQueue
  split
  · split
    · exact Or.inl rfl
    · exact Or.inl rfl
  · split
    · exact Or.inl rfl
    · split
      · exact Or.inl rfl
      · exact Or.inr rfl

/-- The final `multi_thread` flag of the registration loop: the incoming
flag, degraded unless every remaining filename is fresh. -/
theorem extractLoop_multi_thread (fsExists : String → Bool) (path : Option String) :
    ∀ (fs : List OutFile) (fid : Nat) (st : ExtractPlan) (plan : ExtractPlan),
      extractLoop fsExists path fid st fs = .ok plan →
      plan.multi_thread = (st.multi_thread && newNamesOk st.fnames fs) := by
  intro fs
  induction fs with
  | nil =>
    intro fid st plan h
    cases h
    exact (Bool.and_true _).symm
  | cons f fs ih =>
    intro fid st plan h
    simp only [extractLoop] at h
    cases hesc : pyStartswith f.filename "../" with
    | true => rw [hesc] at h; cases h
    | false =>
      rw [hesc] at h
      simp only [Bool.false_eq_true, if_false] at h
      have h2 := ih (fid + 1) _ plan h
      rw [extractQueue_multi_thread, extractQueue_fnames] at h2
      rw [h2, newNamesOk]
      cases hdup : st.fnames.contains f.filename with
      | true => simp [hdup]
      | false => simp [hdup]

/-- `newNamesOk` is exactly no-duplicates plus disjointness from the
names already seen. -/
theorem newNamesOk_iff :
    ∀ (fs : List OutFile) (seen : List String),
      newNamesOk seen fs = true ↔
        ((fs.map (fun f => f.filename)).Nodup ∧
          ∀ n ∈ fs.map (fun f => f.filename), n ∉ seen) := by
  intro fs
  induction fs with
  | nil => intro seen; simp [newNamesOk]
  | cons f fs ih =>
    intro seen
    rw [newNamesOk]
    have hcont : (seen.contains f.filename = false) ↔ f.filename ∉ seen := by simp
    simp only [Bool.and_eq_true, Bool.not_eq_true', ih, List.map_cons, List.nodup_cons,
      List.mem_cons, hcont]
    constructor
    · rintro ⟨hseen, hnd, hdisj⟩
      have hnotin : f.filename ∉ fs.map (fun f => f.filename) := fun hmem => by
        have := hdisj _ hmem
        simp at this
      refine ⟨⟨hnotin, hnd⟩, ?_⟩
      rintro n (rfl | hmem)
      · exact hseen
      · intro hn
        exact hdisj n hmem (by simp [hn])
    · rintro ⟨⟨hnotin, hnd⟩, hdisj⟩
      refine ⟨hdisj f.filename (Or.inl rfl), hnd, ?_⟩
      intro n hmem hsn
      rw [List.mem_append, List.mem_singleton] at hsn
      cases hsn with
      | inl hs => exact hdisj n (Or.inr hmem) hs
      | inr heq => exact hnotin (heq ▸ hmem)

/-- The registration loop appends registered pairs with strictly
increasing ids, all at least the running id. -/
theorem extractLoop_registered (fsExists : String → Bool) (path : Option String) :
    ∀ (fs : List OutFile) (fid : Nat) (st : ExtractPlan) (plan : ExtractPlan),
      extractLoop fsExists path fid st fs = .ok plan →
      ∃ new, plan.registered = st.registered ++ new ∧
        (∀ e ∈ new, fid ≤ e.1) ∧ List.Chain' (fun a b => a.1 < b.1) new := by
  intro fs
  induction fs with
  | nil =>
    intro fid st plan h
    cases h
    exact ⟨[], by simp, by simp, List.chain'_nil⟩
  | cons f fs ih =>
    intro fid st plan h
    simp only [extractLoop] at h
    cases hesc : pyStartswith f.filename "../" with
    | true => rw [hesc] at h; cases h
    | false =>
      rw [hesc] at h
      simp only [Bool.false_eq_true, if_false] at h
      obtain ⟨new2, hreg, hge, hch⟩ := ih (fid + 1) _ plan h
      have hq := extractQueue_registered fsExists fid f (outNameFor path f.filename)
        { st with
          multi_thread := if st.fnames.contains f.filename then false else st.multi_thread,
          fnames := st.fnames ++ [f.filename] }
      cases hq with
      | inl hsame =>
        rw [hsame] at hreg
        exact ⟨new2, hreg, fun e he => Nat.le_of_succ_le (hge e he), hch⟩
      | inr happ =>
        rw [happ, List.append_assoc] at hreg
        refine ⟨_ ++ new2, hreg, ?_, ?_⟩
        · intro e he
          rw [List.mem_append, List.mem_singleton] at he
          cases he with
          | inl heq => rw [heq]
          | inr hmem => exact Nat.le_of_succ_le (hge e hmem)
        · rw [List.singleton_append]
          rw [List.chain'_cons']
          exact ⟨fun y hy => hge y (List.mem_of_mem_head? hy), hch⟩

/-- The modelled sequential worker really makes the last registration of
a path win: its final content at `p` is the id of the last registered
pair whose path is `p`. -/
theorem workerWrite_foldl {p : String} :
    ∀ (regs : List (Nat × String)) (acc : Option Nat),
      regs.foldl (fun acc e => if e.2 == p then some e.1 else acc) acc =
        match (regs.filter (fun e => e.2 == p)).getLast? with
        | some e => some e.1
        | none => acc := by
  intro regs
  induction regs with
  | nil => intro acc; rfl
  | cons e regs ih =>
    intro acc
    rw [List.foldl_cons, ih, List.filter_cons]
    cases hp : (e.2 == p) with
    | false => simp
    | true =>
      rw [if_pos rfl, if_pos rfl, getLast?_cons_match]
      cases (regs.filter (fun e => e.2 == p)).getLast? <;> rfl

/-- Claim C7 (counterexample): an archive with two folders and two pack
streams whose entries are a directory named `x` and a regular file named
`x`: the directory is never registered, so no two registered entries
share an output path and both numeric conditions hold, yet the worker is
told to run sequentially. -/
theorem C7_counterexample :
    1 < twoFolderStreams.unpackinfo.numfolders ∧
    twoFolderStreams.packinfo.numstreams = twoFolderStreams.unpackinfo.numfolders ∧
    extractall (fun _ => false) none twoFolderHdr dupNameFiles = .ok
      { multi_thread := false, fnames := ["x", "x"], target_dirs := ["x"],
        target_files := ["x", "x"], target_sym := [], registered := [(1, "x")] } ∧
    (([(1, "x")] : List (Nat × String)).map (fun e => e.2)).Nodup := by
  refine ⟨by norm_num [twoFolderStreams], rfl, by decide, by simp⟩

/-- Claim C7 (amended): the registration loop enables concurrent
decompression if and only if the archive has more than one folder, the
pack-stream count equals the folder count, and no two entries of the
archive (of any kind, registered or not) share a filename; registration
happens in header order (strictly increasing ids), and the sequential
worker gives a duplicated path the content of the last entry registered
for it. -/
theorem C7_multithread_amended (fsExists : String → Bool) (path : Option String)
    (hdr : Header) (ms : StreamsInfo) (files : List OutFile) (plan : ExtractPlan)
    (hms : hdr.main_streams = some ms)
    (hok : extractall fsExists path hdr files = .ok plan) :
    (plan.multi_thread = true ↔
      (1 < ms.unpackinfo.numfolders ∧
        ms.packinfo.numstreams = ms.unpackinfo.numfolders ∧
        (files.map (fun f => f.filename)).Nodup)) ∧
    List.Chain' (fun a b => a.1 < b.1) plan.registered ∧
    (∀ p, workerWrite plan.registered p =
      match (plan.registered.filter (fun e => e.2 == p)).getLast? with
      | some e => some e.1
      | none => none) := by
  rw [extractall, hms] at hok
  refine ⟨?_, ?_, fun p => workerWrite_foldl plan.registered none⟩
  · have hmt := extractLoop_multi_thread fsExists path files 0 _ plan hok
    rw [hmt]
    simp only [Bool.and_eq_true, decide_eq_true_iff, beq_iff_eq]
    rw [newNamesOk_iff files []]
    constructor
    · rintro ⟨⟨h1, h2⟩, h3, _⟩
      exact ⟨h1, h2, h3⟩
    · rintro ⟨h1, h2, h3⟩
      exact ⟨⟨h1, h2⟩, h3, fun n _ => List.not_mem_nil n⟩
  · obtain ⟨new, hreg, _, hch⟩ := extractLoop_registered fsExists path files 0 _ plan hok
    rw [hreg]
    simpa using hch

/-- Claim C7 (witness): two regular files with distinct names under a
two-folder, two-stream archive run concurrently, with registrations in
header order. -/
theorem C7_witness :
    extractall (fun _ => false) none twoFolderHdr distinctNameFiles = .ok distinctPlan ∧
    (distinctPlan.multi_thread = true ↔
      (1 < twoFolderStreams.unpackinfo.numfolders ∧
        twoFolderStreams.packinfo.numstreams = twoFolderStreams.unpackinfo.numfolders ∧
        (distinctNameFiles.map (fun f => f.filename)).Nodup)) ∧
    List.Chain' (fun a b => a.1 < b.1) distinctPlan.registered := by
  have hok : extractall (fun _ => false) none twoFolderHdr distinctNameFiles =
      .ok distinctPlan := by decide
  have h := C7_multithread_amended (fun _ => false) none twoFolderHdr twoFolderStreams
    distinctNameFiles distinctPlan rfl hok
  exact ⟨hok, h.1, h.2.1⟩

/-! ### C1 and C10: the reconstruction loop invariant -/

/-- An accumulator is below the running maximum it seeds. -/
theorem le_foldl_max {α : Type} (g : α → Nat) :
    ∀ (l : List α) (a : Nat), a ≤ l.foldl (fun m c => max m (g c)) a := by
  intro l
  induction l with
  | nil => intro a; exact Nat.le_refl a
  | cons c l ih =>
    intro a
    exact Nat.le_trans (Nat.le_max_left a (g c)) (ih (max a (g c)))

/-- Every folder declares at least one input stream. -/
theorem numInstreams_pos (f : Folder) : 1 ≤ f.numInstreams := by
  unfold Folder.numInstreams
  exact le_foldl_max (fun c => c.numinstreams.getD 1) f.coders 1

/-- The pack cursor advances by the folder's input-stream count. -/
theorem cursorAt_succ (ctx : RetrCtx) (k : Nat) (hk : k < ctx.folders.length) :
    cursorAt ctx (k + 1) = cursorAt ctx k + nisAt ctx k := by
  unfold cursorAt nisAt
  rw [List.take_succ, List.map_append, List.sum_append, List.getElem?_eq_getElem hk]
  simp [List.getD_eq_getElem?_getD, List.getElem?_eq_getElem hk]

/-- The pack cursor is monotone in the folder index. -/
theorem cursorAt_mono (ctx : RetrCtx) (k m : Nat) (h : k ≤ m) :
    cursorAt ctx k ≤ cursorAt ctx m := by
  unfold cursorAt
  rw [show m = k + (m - k) by omega, List.take_add, List.map_append, List.sum_append]
  exact Nat.le_add_right _ _

/-- The substream-count prefix sum advances by the folder's count. -/
theorem snuAt_succ (ctx : RetrCtx) (k : Nat) (hk : k < ctx.numunpack.length) :
    snuAt ctx (k + 1) = snuAt ctx k + nuAt ctx k := by
  unfold snuAt nuAt
  rw [List.take_succ, List.sum_append, List.getElem?_eq_getElem hk]
  simp [List.getD_eq_getElem?_getD, List.getElem?_eq_getElem hk]

/-- The full prefix sum is the total substream count. -/
theorem snuAt_total (ctx : RetrCtx) (hF : ctx.numunpack.length = ctx.folders.length) :
    snuAt ctx ctx.folders.length = ctx.numunpack.sum := by
  unfold snuAt
  rw [← hF, List.take_length]

/-- Appending one record shifts a `countP` by its own flag. -/
theorem countP_append_one {α : Type} (l : List α) (a : α) (p : α → Bool) :
    (l ++ [a]).countP p = l.countP p + (if p a then 1 else 0) := by
  rw [List.countP_append, List.countP_cons, List.countP_nil, Nat.zero_add]

/-- The output record of the stream step: its folder reference. -/
theorem stepStream_folder (ctx : RetrCtx) (fid : Nat) (f : FileRec) (st : RetrState) :
    (filelistStepStream ctx fid f st).1.folder = some st.folder_index := rfl

/-- The output record of the stream step: its uncompressed sizes. -/
theorem stepStream_uncompressed (ctx : RetrCtx) (fid : Nat) (f : FileRec) (st : RetrState) :
    (filelistStepStream ctx fid f st).1.uncompressed =
      (match ctx.unpacksizes.getD st.output_binary_index (UnpackEntry.single 0) with
       | .single s => List.replicate (ctx.folders.getD st.folder_index {}).coders.length s
       | .sizes l => l) := rfl

/-- The output record of the stream step: its compressed size. -/
theorem stepStream_compressed (ctx : RetrCtx) (fid : Nat) (f : FileRec) (st : RetrState) :
    (filelistStepStream ctx fid f st).1.compressed =
      (if 0 < st.file_in_solid then none
       else if st.instreamindex < ctx.packsizes.length then
         some (CompVal.int (ctx.packsizes.getD st.instreamindex 0))
       else some (CompVal.sizes (filelistStepStream ctx fid f st).1.uncompressed)) := rfl

/-- The output record of the stream step: its pack-size slice. -/
theorem stepStream_packsizes (ctx : RetrCtx) (fid : Nat) (f : FileRec) (st : RetrState) :
    (filelistStepStream ctx fid f st).1.packsizes =
      (ctx.packsizes.drop st.instreamindex).take (nisAt ctx st.folder_index) := rfl

/-- The state after the stream step: folder index. -/
theorem stepStream_folder_index (ctx : RetrCtx) (fid : Nat) (f : FileRec) (st : RetrState) :
    (filelistStepStream ctx fid f st).2.folder_index =
      (if nuAt ctx st.folder_index ≤ st.streamidx + 1 then st.folder_index + 1
       else st.folder_index) := by
  simp only [filelistStepStream]
  split <;> rfl

/-- The state after the stream step: output-binary index. -/
theorem stepStream_obi (ctx : RetrCtx) (fid : Nat) (f : FileRec) (st : RetrState) :
    (filelistStepStream ctx fid f st).2.output_binary_index =
      st.output_binary_index + 1 := by
  simp only [filelistStepStream]
  split <;> rfl

/-- The state after the stream step: stream index. -/
theorem stepStream_streamidx (ctx : RetrCtx) (fid : Nat) (f : FileRec) (st : RetrState) :
    (filelistStepStream ctx fid f st).2.streamidx =
      (if nuAt ctx st.folder_index ≤ st.streamidx + 1 then 0 else st.streamidx + 1) := by
  simp only [filelistStepStream]
  split <;> rfl

/-- The state after the stream step: solid-file flag. -/
theorem stepStream_fis (ctx : RetrCtx) (fid : Nat) (f : FileRec) (st : RetrState) :
    (filelistStepStream ctx fid f st).2.file_in_solid =
      (if nuAt ctx st.folder_index ≤ st.streamidx + 1 then 0
       else if (solidsAfter ctx st).getD st.folder_index false then 1
       else st.file_in_solid) := by
  simp only [filelistStepStream]
  split <;> rfl

/-- The state after the stream step: in-stream cursor. -/
theorem stepStream_isi (ctx : RetrCtx) (fid : Nat) (f : FileRec) (st : RetrState) :
    (filelistStepStream ctx fid f st).2.instreamindex =
      (if nuAt ctx st.folder_index ≤ st.streamidx + 1 then
        st.instreamindex + nisAt ctx st.folder_index
       else st.instreamindex) := by
  simp only [filelistStepStream]
  split <;> rfl

/-- The state after the stream step: solid flags. -/
theorem stepStream_solids (ctx : RetrCtx) (fid : Nat) (f : FileRec) (st : RetrState) :
    (filelistStepStream ctx fid f st).2.solids = solidsAfter ctx st := by
  simp only [filelistStepStream]
  split <;> rfl

/-- Substream counts are positive at every folder index in range. -/
theorem nuAt_pos (ctx : RetrCtx) (hF : ctx.numunpack.length = ctx.folders.length)
    (hone : ∀ n ∈ ctx.numunpack, 1 ≤ n) (k : Nat) (hk : k < ctx.folders.length) :
    1 ≤ nuAt ctx k := by
  have hk2 : k < ctx.numunpack.length := by rw [hF]; exact hk
  unfold nuAt
  rw [List.getD_eq_getElem?_getD, List.getElem?_eq_getElem hk2]
  exact hone _ (List.getElem_mem hk2)

/-- After the py7zr.py:376-377 (re)assignment, the current folder's solid
flag is `num_unpackstreams_folders[folder_index] > 1`. -/
theorem solidsAfter_getD (ctx : RetrCtx) (st : RetrState)
    (hlen : st.solids.length = ctx.folders.length)
    (hfi : st.folder_index < ctx.folders.length)
    (h9 : 0 < st.streamidx →
      st.solids.getD st.folder_index false = decide (1 < nuAt ctx st.folder_index)) :
    (solidsAfter ctx st).getD st.folder_index false =
      decide (1 < nuAt ctx st.folder_index) := by
  unfold solidsAfter
  by_cases h : st.streamidx = 0
  · rw [if_pos h, List.getD_eq_getElem?_getD,
      List.getElem?_set_self (by rw [hlen]; exact hfi), Option.getD_some]
  · rw [if_neg h]
    exact h9 (Nat.pos_of_ne_zero h)

/-- The folder solid flags keep their length across the reassignment. -/
theorem solidsAfter_length (ctx : RetrCtx) (st : RetrState) :
    (solidsAfter ctx st).length = st.solids.length := by
  unfold solidsAfter
  split
  · exact List.length_set st.solids _ _
  · rfl

/-- An empty-stream record preserves the loop invariant. -/
theorem retrInv_empty_step (ctx : RetrCtx) (f : FileRec) (st : RetrState)
    (pre : List OutFile) (hinv : RetrInv ctx st pre) :
    RetrInv ctx (filelistStepEmpty ctx f st).2
      (pre ++ [(filelistStepEmpty ctx f st).1]) := by
  obtain ⟨i1, i2, i3, i4, i5, i7, i8, i9, i10, i11⟩ := hinv
  have hfold : (filelistStepEmpty ctx f st).1.folder = none := rfl
  refine ⟨?_, i2, i3, i4, i5, ?_, ?_, i9, i10, i11⟩
  · rw [countP_append_one]
    simp only [hfold, Option.isSome_none, if_neg Bool.false_ne_true, Nat.add_zero]
    exact i1
  · rw [countP_append_one]
    simp only [hfold]
    rw [if_neg (by simp), Nat.add_zero]
    exact i7
  · intro o ho k hk
    rw [List.mem_append, List.mem_singleton] at ho
    cases ho with
    | inl hp => exact i8 o hp k hk
    | inr he => rw [he, hfold] at hk; cases hk

/-- A non-empty-stream record preserves the loop invariant, as long as the
current folder index is in range. -/
theorem retrInv_stream_step (ctx : RetrCtx)
    (hF : ctx.numunpack.length = ctx.folders.length)
    (hone : ∀ n ∈ ctx.numunpack, 1 ≤ n)
    (fid : Nat) (f : FileRec) (st : RetrState) (pre : List OutFile)
    (hinv : RetrInv ctx st pre) (hfi : st.folder_index < ctx.folders.length) :
    RetrInv ctx (filelistStepStream ctx fid f st).2
      (pre ++ [(filelistStepStream ctx fid f st).1]) := by
  obtain ⟨i1, i2, i3, i4, i5, i7, i8, i9, i10, i11⟩ := hinv
  have hsolid := solidsAfter_getD ctx st i11 hfi i9
  have hcount1 : (pre ++ [(filelistStepStream ctx fid f st).1]).countP
      (fun o => o.folder.isSome) = pre.countP (fun o => o.folder.isSome) + 1 := by
    rw [countP_append_one]
    simp [stepStream_folder]
  by_cases hbd : nuAt ctx st.folder_index ≤ st.streamidx + 1
  · have hnn : nuAt ctx st.folder_index = st.streamidx + 1 :=
      Nat.le_antisymm hbd (i5 hfi)
    refine ⟨?_, ?_, ?_, ?_, ?_, ?_, ?_, ?_, ?_, ?_⟩
    · rw [stepStream_obi, hcount1, i1]
    · rw [stepStream_isi, if_pos hbd, stepStream_folder_index, if_pos hbd,
        cursorAt_succ ctx _ hfi, i2]
    · rw [stepStream_obi, stepStream_streamidx, if_pos hbd, stepStream_folder_index,
        if_pos hbd, snuAt_succ ctx _ (by rw [hF]; exact hfi)]
      omega
    · rw [stepStream_folder_index, if_pos hbd]
      exact hfi
    · rw [stepStream_folder_index, if_pos hbd, stepStream_streamidx, if_pos hbd]
      intro h
      exact nuAt_pos ctx hF hone _ h
    · rw [stepStream_folder_index, if_pos hbd, stepStream_streamidx, if_pos hbd,
        countP_append_one]
      rw [if_neg (by
        rw [stepStream_folder]
        simp)]
      rw [Nat.add_zero, List.countP_eq_zero]
      intro o ho
      intro hbeq
      rw [beq_iff_eq] at hbeq
      have := i8 o ho _ hbeq
      omega
    · intro o ho k hk
      rw [stepStream_folder_index, if_pos hbd]
      rw [List.mem_append, List.mem_singleton] at ho
      cases ho with
      | inl hp => exact Nat.le_succ_of_le (i8 o hp k hk)
      | inr he =>
        rw [he, stepStream_folder] at hk
        cases hk
        exact Nat.le_succ _
    · rw [stepStream_streamidx, if_pos hbd]
      intro h
      omega
    · rw [stepStream_fis, if_pos hbd, stepStream_streamidx, if_pos hbd]
      simp
    · rw [stepStream_solids, solidsAfter_length]
      exact i11
  · refine ⟨?_, ?_, ?_, ?_, ?_, ?_, ?_, ?_, ?_, ?_⟩
    · rw [stepStream_obi, hcount1, i1]
    · rw [stepStream_isi, if_neg hbd, stepStream_folder_index, if_neg hbd]
      exact i2
    · rw [stepStream_obi, stepStream_streamidx, if_neg hbd, stepStream_folder_index,
        if_neg hbd]
      omega
    · rw [stepStream_folder_index, if_neg hbd]
      exact i4
    · rw [stepStream_folder_index, if_neg hbd, stepStream_streamidx, if_neg hbd]
      intro _
      omega
    · rw [stepStream_folder_index, if_neg hbd, stepStream_streamidx, if_neg hbd,
        countP_append_one]
      rw [if_pos (by
        rw [stepStream_folder]
        simp)]
      rw [i7]
    · intro o ho k hk
      rw [stepStream_folder_index, if_neg hbd]
      rw [List.mem_append, List.mem_singleton] at ho
      cases ho with
      | inl hp => exact i8 o hp k hk
      | inr he =>
        rw [he, stepStream_folder] at hk
        cases hk
        exact Nat.le_refl _
    · rw [stepStream_solids, stepStream_folder_index, if_neg hbd]
      intro _
      exact hsolid
    · rw [stepStream_fis, if_neg hbd, hsolid, stepStream_streamidx, if_neg hbd,
        stepStream_folder_index, if_neg hbd]
      cases hn : decide (1 < nuAt ctx st.folder_index) with
      | true =>
        have hn2 := of_decide_eq_true hn
        simp [hn2]
      | false =>
        have hn2 := of_decide_eq_false hn
        rw [if_neg Bool.false_ne_true, i10]
        simp [hn2]
    · rw [stepStream_solids, solidsAfter_length]
      exact i11

/-- The element at the seam of `(pre ++ [x]) ++ rest`. -/
theorem get?_append_middle {α : Type} (pre : List α) (x : α) (rest : List α) :
    ((pre ++ [x]) ++ rest).get? pre.length = some x := by
  rw [List.get?_eq_getElem?, List.getElem?_append_left (by simp),
    List.getElem?_append_right (Nat.le_refl _)]
  simp

/-- Taking up to the seam of `(pre ++ [x]) ++ rest` recovers `pre`. -/
theorem take_append_middle {α : Type} (pre : List α) (x : α) (rest : List α) :
    ((pre ++ [x]) ++ rest).take pre.length = pre := by
  rw [List.append_assoc, List.take_left]

/-- The master lemma for the reconstruction loop: under the invariant and
the substream-count budget, every record the loop emits with a folder
reference `k` keeps `k` in range and satisfies the
compressed/uncompressed/packsizes characterization, positionally in the
full output `pre ++ loop`. -/
theorem filelistLoop_master (ctx : RetrCtx)
    (hF : ctx.numunpack.length = ctx.folders.length)
    (hone : ∀ n ∈ ctx.numunpack, 1 ≤ n)
    (hcur : cursorAt ctx ctx.folders.length ≤ ctx.packsizes.length) :
    ∀ (fs : List FileRec) (fid : Nat) (st : RetrState) (pre : List OutFile),
      RetrInv ctx st pre →
      st.output_binary_index + fs.countP (fun f => !f.emptystream) ≤ ctx.numunpack.sum →
      ∀ i o k,
        (pre ++ filelistLoop ctx true fid st fs).get? i = some o →
        pre.length ≤ i → o.folder = some k →
        k < ctx.folders.length ∧
        ((pre ++ filelistLoop ctx true fid st fs).take i).countP
            (fun x => x.folder == some k) < nuAt ctx k ∧
        (((pre ++ filelistLoop ctx true fid st fs).take i).countP
            (fun x => x.folder == some k) = 0 →
          o.compressed = some (CompVal.int (ctx.packsizes.getD (cursorAt ctx k) 0))) ∧
        (0 < ((pre ++ filelistLoop ctx true fid st fs).take i).countP
            (fun x => x.folder == some k) → 1 < nuAt ctx k → o.compressed = none) ∧
        o.packsizes = (ctx.packsizes.drop (cursorAt ctx k)).take (nisAt ctx k) ∧
        o.uncompressed =
          (match ctx.unpacksizes.getD
              (((pre ++ filelistLoop ctx true fid st fs).take i).countP
                (fun x => x.folder.isSome)) (UnpackEntry.single 0) with
           | .single s => List.replicate (ctx.folders.getD k {}).coders.length s
           | .sizes l => l) := by
  intro fs
  induction fs with
  | nil =>
    intro fid st pre hinv hrem i o k hget hlen hfold
    rw [filelistLoop, List.append_nil] at hget
    obtain ⟨hlt, _⟩ := List.get?_eq_some.mp hget
    omega
  | cons f fs ih =>
    intro fid st pre hinv hrem i o k hget hlen hfold
    have hsplit : filelistLoop ctx true fid st (f :: fs) =
        (filelistStep ctx true fid f st).1 ::
          filelistLoop ctx true (fid + 1) (filelistStep ctx true fid f st).2 fs := rfl
    cases hemp : f.emptystream with
    | true =>
      have hstep : filelistStep ctx true fid f st = filelistStepEmpty ctx f st := by
        simp [filelistStep, hemp]
      rw [hsplit, hstep, List.append_cons] at hget ⊢
      have hrem2 : (filelistStepEmpty ctx f st).2.output_binary_index +
          fs.countP (fun g => !g.emptystream) ≤ ctx.numunpack.sum := by
        have hcnt : (f :: fs).countP (fun g => !g.emptystream) =
            fs.countP (fun g => !g.emptystream) := by
          rw [List.countP_cons]
          simp [hemp]
        have hobi : (filelistStepEmpty ctx f st).2.output_binary_index =
            st.output_binary_index := rfl
        rw [hobi]
        omega
      rcases Nat.eq_or_lt_of_le hlen with heq | hlt
      · exfalso
        rw [← heq, get?_append_middle] at hget
        have ho : o = (filelistStepEmpty ctx f st).1 := (Option.some_inj.mp hget).symm
        have hnone : (filelistStepEmpty ctx f st).1.folder = none := rfl
        rw [ho, hnone] at hfold
        cases hfold
      · exact ih (fid + 1) (filelistStepEmpty ctx f st).2
          (pre ++ [(filelistStepEmpty ctx f st).1])
          (retrInv_empty_step ctx f st pre hinv) hrem2 i o k hget
          (by rw [List.length_append, List.length_singleton]; omega) hfold
    | false =>
      have hstep : filelistStep ctx true fid f st = filelistStepStream ctx fid f st := by
        simp [filelistStep, hemp]
      rw [hsplit, hstep, List.append_cons] at hget ⊢
      obtain ⟨i1, i2, i3, i4, i5, i7, i8, i9, i10, i11⟩ := hinv
      have hfi : st.folder_index < ctx.folders.length := by
        rcases Nat.lt_or_ge st.folder_index ctx.folders.length with h | hge
        · exact h
        · exfalso
          have hfe : st.folder_index = ctx.folders.length := Nat.le_antisymm i4 hge
          rw [hfe, snuAt_total ctx hF] at i3
          have h2 : 1 ≤ (f :: fs).countP (fun g => !g.emptystream) := by
            rw [List.countP_cons]
            simp [hemp]
          omega
      have hrem2 : (filelistStepStream ctx fid f st).2.output_binary_index +
          fs.countP (fun g => !g.emptystream) ≤ ctx.numunpack.sum := by
        have hcnt : (f :: fs).countP (fun g => !g.emptystream) =
            fs.countP (fun g => !g.emptystream) + 1 := by
          rw [List.countP_cons]
          simp [hemp]
        rw [stepStream_obi]
        omega
      rcases Nat.eq_or_lt_of_le hlen with heq | hlt
      · rw [← heq, get?_append_middle] at hget
        have ho : o = (filelistStepStream ctx fid f st).1 := (Option.some_inj.mp hget).symm
        have hk : k = st.folder_index := by
          rw [ho, stepStream_folder] at hfold
          exact (Option.some_inj.mp hfold).symm
        rw [← heq, take_append_middle]
        subst hk
        subst ho
        have hclt : cursorAt ctx st.folder_index < ctx.packsizes.length := by
          have h1 := cursorAt_succ ctx st.folder_index hfi
          have h2 := cursorAt_mono ctx (st.folder_index + 1) ctx.folders.length hfi
          have h3 := numInstreams_pos (ctx.folders.getD st.folder_index {})
          unfold nisAt at h1
          omega
        refine ⟨hfi, ?_, ?_, ?_, ?_, ?_⟩
        · rw [i7]
          exact i5 hfi
        · intro hc0
          rw [i7] at hc0
          rw [stepStream_compressed, i10, hc0]
          rw [if_neg (show ¬(0 < 0 ∧ 1 < nuAt ctx st.folder_index) by simp)]
          rw [if_neg (show ¬(0 < 0) by omega)]
          rw [i2, if_pos hclt]
        · intro hcpos hnu
          rw [i7] at hcpos
          have hinner : (if 0 < st.streamidx ∧ 1 < nuAt ctx st.folder_index then 1 else 0)
              = 1 := if_pos ⟨hcpos, hnu⟩
          rw [stepStream_compressed, i10, hinner, if_pos (show 0 < 1 by omega)]
        · rw [stepStream_packsizes, i2]
        · rw [stepStream_uncompressed, i1]
      · exact ih (fid + 1) (filelistStepStream ctx fid f st).2
          (pre ++ [(filelistStepStream ctx fid f st).1])
          (retrInv_stream_step ctx hF hone fid f st pre
            ⟨i1, i2, i3, i4, i5, i7, i8, i9, i10, i11⟩ hfi) hrem2 i o k hget
          (by rw [List.length_append, List.length_singleton]; omega) hfold

/-- With main streams and a files section present, the reconstruction is
the loop over the explicit context and initial state. -/
theorem filelistRetrieve_eq (basefilename : Option String) (afterheader : Nat)
    (hdr : Header) (ms : StreamsInfo) (finfo : FilesInfo)
    (hms : hdr.main_streams = some ms) (hfi : hdr.files_info = some finfo) :
    filelistRetrieve basefilename afterheader hdr =
      filelistLoop (mkCtxOf basefilename ms) true 0 (initRetrState afterheader ms)
        finfo.files := by
  unfold filelistRetrieve mkRetrCtx
  rw [hfi, hms]
  rfl

/-- The initial state satisfies the loop invariant with no emitted
records. -/
theorem retrInv_init (basefilename : Option String) (afterheader : Nat)
    (ms : StreamsInfo)
    (hF : ms.substreamsinfo.num_unpackstreams_folders.length =
      ms.unpackinfo.folders.length)
    (hone : ∀ n ∈ ms.substreamsinfo.num_unpackstreams_folders, 1 ≤ n) :
    RetrInv (mkCtxOf basefilename ms) (initRetrState afterheader ms) [] := by
  refine ⟨rfl, rfl, rfl, Nat.zero_le _, ?_, rfl, ?_, ?_, ?_, ?_⟩
  · intro h
    exact nuAt_pos (mkCtxOf basefilename ms) hF hone 0 h
  · intro o ho
    cases ho
  · intro h
    rw [show (initRetrState afterheader ms).streamidx = 0 from rfl] at h
    exact absurd h (Nat.lt_irrefl 0)
  · rfl
  · simp [initRetrState, mkCtxOf]

/-- Claim C1 (counterexample): in the solid archive `solidHdr` (folder 0
has 2 substreams), the first file of the folder is reconstructed with
`compressed = 5` (the folder's pack size), not `None`; only the second
file gets `None`. -/
theorem C1_counterexample :
    solidStreams.substreamsinfo.num_unpackstreams_folders.getD 0 0 = 2 ∧
    ((filelistRetrieve none 32 solidHdr).get? 0).map (fun o => (o.folder, o.compressed)) =
      some (some 0, some (CompVal.int 5)) ∧
    ((filelistRetrieve none 32 solidHdr).get? 1).map (fun o => (o.folder, o.compressed)) =
      some (some 0, none) := by
  refine ⟨by decide, by decide, by decide⟩

/-- Claim C1 (amended): for every reconstructed record carrying a folder
reference `k` (archive well-formed: one substream count per folder, all
positive, enough pack sizes for every folder's input streams, and no more
non-empty records than substreams): the first file drawn from folder `k`
gets `compressed = pack_sizes[pack cursor of k]`, every later file of a
solid folder gets `compressed = None`, the record's `packsizes` is the
folder's pack-size slice, and when folder `k` has exactly one substream
and declares a single input stream the compressed size equals the sum of
the record's pack sizes, as the claim stated. -/
theorem C1_compressed_amended (basefilename : Option String) (afterheader : Nat)
    (hdr : Header) (ms : StreamsInfo) (finfo : FilesInfo)
    (hms : hdr.main_streams = some ms) (hfi : hdr.files_info = some finfo)
    (hF : ms.substreamsinfo.num_unpackstreams_folders.length =
      ms.unpackinfo.folders.length)
    (hone : ∀ n ∈ ms.substreamsinfo.num_unpackstreams_folders, 1 ≤ n)
    (hcur : ((ms.unpackinfo.folders).map Folder.numInstreams).sum ≤
      ms.packinfo.packsizes.length)
    (hcnt : finfo.files.countP (fun f => !f.emptystream) ≤
      ms.substreamsinfo.num_unpackstreams_folders.sum) :
    ∀ i o k,
      (filelistRetrieve basefilename afterheader hdr).get? i = some o →
      o.folder = some k →
      k < ms.unpackinfo.folders.length ∧
      (((filelistRetrieve basefilename afterheader hdr).take i).countP
          (fun x => x.folder == some k) = 0 →
        o.compressed = some (CompVal.int (ms.packinfo.packsizes.getD
          (((ms.unpackinfo.folders.take k).map Folder.numInstreams).sum) 0))) ∧
      (0 < ((filelistRetrieve basefilename afterheader hdr).take i).countP
          (fun x => x.folder == some k) →
        1 < ms.substreamsinfo.num_unpackstreams_folders.getD k 0 →
        o.compressed = none) ∧
      o.packsizes = (ms.packinfo.packsizes.drop
          (((ms.unpackinfo.folders.take k).map Folder.numInstreams).sum)).take
          (ms.unpackinfo.folders.getD k {}).numInstreams ∧
      (ms.substreamsinfo.num_unpackstreams_folders.getD k 0 = 1 →
        (ms.unpackinfo.folders.getD k {}).numInstreams = 1 →
        o.compressed = some (CompVal.int o.packsizes.sum)) := by
  intro i o k hget hfold
  rw [filelistRetrieve_eq basefilename afterheader hdr ms finfo hms hfi] at hget ⊢
  have hcur2 : cursorAt (mkCtxOf basefilename ms) (mkCtxOf basefilename ms).folders.length ≤
      (mkCtxOf basefilename ms).packsizes.length := by
    show ((ms.unpackinfo.folders.take ms.unpackinfo.folders.length).map
      Folder.numInstreams).sum ≤ ms.packinfo.packsizes.length
    rw [List.take_length]
    exact hcur
  have hmaster := filelistLoop_master (mkCtxOf basefilename ms) hF hone hcur2
    finfo.files 0 (initRetrState afterheader ms) []
    (retrInv_init basefilename afterheader ms hF hone)
    (by
      rw [show (initRetrState afterheader ms).output_binary_index = 0 from rfl,
        Nat.zero_add]
      exact hcnt)
    i o k (by rw [List.nil_append]; exact hget) (Nat.zero_le i) hfold
  rw [List.nil_append] at hmaster
  obtain ⟨h1, h2, h3, h4, h5, _⟩ := hmaster
  have hck : k < ms.unpackinfo.folders.length := h1
  have hclt : cursorAt (mkCtxOf basefilename ms) k <
      (mkCtxOf basefilename ms).packsizes.length := by
    have ha := cursorAt_succ (mkCtxOf basefilename ms) k h1
    have hb := cursorAt_mono (mkCtxOf basefilename ms) (k + 1)
      (mkCtxOf basefilename ms).folders.length h1
    have hc := numInstreams_pos ((mkCtxOf basefilename ms).folders.getD k {})
    unfold nisAt at ha
    omega
  refine ⟨h1, h3, h4, h5, ?_⟩
  intro hnu1 hnis1
  have hc0 : ((filelistLoop (mkCtxOf basefilename ms) true 0 (initRetrState afterheader ms)
      finfo.files).take i).countP (fun x => x.folder == some k) = 0 := by
    have h2b : ((filelistLoop (mkCtxOf basefilename ms) true 0
        (initRetrState afterheader ms) finfo.files).take i).countP
          (fun x => x.folder == some k) <
        ms.substreamsinfo.num_unpackstreams_folders.getD k 0 := h2
    omega
  rw [h3 hc0, h5]
  have hnis2 : nisAt (mkCtxOf basefilename ms) k = 1 := hnis1
  show some (CompVal.int ((mkCtxOf basefilename ms).packsizes.getD
      (cursorAt (mkCtxOf basefilename ms) k) 0)) =
    some (CompVal.int (((mkCtxOf basefilename ms).packsizes.drop
      (cursorAt (mkCtxOf basefilename ms) k)).take
      (nisAt (mkCtxOf basefilename ms) k)).sum)
  rw [hnis2, List.drop_eq_getElem_cons hclt]
  rw [show (1 : Nat) = 0 + 1 from rfl, List.take_succ_cons, List.take_zero]
  rw [List.sum_cons, List.sum_nil, Nat.add_zero]
  rw [List.getD_eq_getElem?_getD, List.getElem?_eq_getElem hclt, Option.getD_some]

/-- Claim C1 (witness): in the concrete solid archive, the second file of
the solid folder (a later substream) is reconstructed with
`compressed = None`. -/
theorem C1_witness :
    (solidStreams.substreamsinfo.num_unpackstreams_folders.length =
      solidStreams.unpackinfo.folders.length) ∧
    (∀ n ∈ solidStreams.substreamsinfo.num_unpackstreams_folders, 1 ≤ n) ∧
    (((solidStreams.unpackinfo.folders).map Folder.numInstreams).sum ≤
      solidStreams.packinfo.packsizes.length) ∧
    (solidFilesInfo.files.countP (fun f => !f.emptystream) ≤
      solidStreams.substreamsinfo.num_unpackstreams_folders.sum) ∧
    (filelistRetrieve none 32 solidHdr).get? 1 = some solidOut1 ∧
    solidOut1.folder = some 0 ∧
    0 < ((filelistRetrieve none 32 solidHdr).take 1).countP
      (fun x => x.folder == some 0) ∧
    1 < solidStreams.substreamsinfo.num_unpackstreams_folders.getD 0 0 ∧
    solidOut1.compressed = none := by
  have h := C1_compressed_amended none 32 solidHdr solidStreams solidFilesInfo rfl rfl
    (by decide) (by decide) (by decide) (by decide) 1 solidOut1 0 (by decide) (by decide)
  exact ⟨rfl, by decide, by decide, by decide, rfl, rfl, by decide, by decide,
    h.2.2.1 (by decide) (by decide)⟩

/-! ### C10: replicated single substream sizes -/

/-- Folding addition over a replicated list. -/
theorem foldl_add_replicate (a s m : Nat) :
    (List.replicate m s).foldl (· + ·) a = a + m * s := by
  induction m generalizing a with
  | zero => simp
  | succ m ih =>
    rw [List.replicate_succ, List.foldl_cons, ih]
    ring

/-- `uncompressed_size` of a record whose sizes are a non-empty
replicated list. -/
theorem uncompressedSize_replicate (o : OutFile) (m s : Nat)
    (h : o.uncompressed = List.replicate (m + 1) s) :
    uncompressedSize o = some ((m + 1) * s) := by
  unfold uncompressedSize
  rw [h, List.replicate_succ]
  show some ((List.replicate m s).foldl (· + ·) s) = some ((m + 1) * s)
  rw [foldl_add_replicate]
  congr 1
  ring

/-- Claim C10: a non-empty-stream file whose substream unpack size comes
as the single integer `s` (the substreams section carried a plain size
vector) stores `uncompressed = [s]` replicated over the folder's coder
count `C`, so `uncompressed_size` returns `C * s` (for `C ≥ 1`; on a
coder-less folder the Python reduce would raise instead). -/
theorem C10_uncompressed_replicated (basefilename : Option String) (afterheader : Nat)
    (hdr : Header) (ms : StreamsInfo) (finfo : FilesInfo) (us : List Nat)
    (hms : hdr.main_streams = some ms) (hfi : hdr.files_info = some finfo)
    (hus : ms.substreamsinfo.unpacksizes = some us)
    (hF : ms.substreamsinfo.num_unpackstreams_folders.length =
      ms.unpackinfo.folders.length)
    (hone : ∀ n ∈ ms.substreamsinfo.num_unpackstreams_folders, 1 ≤ n)
    (hcur : ((ms.unpackinfo.folders).map Folder.numInstreams).sum ≤
      ms.packinfo.packsizes.length)
    (hcnt : finfo.files.countP (fun f => !f.emptystream) ≤
      ms.substreamsinfo.num_unpackstreams_folders.sum) :
    ∀ i o k,
      (filelistRetrieve basefilename afterheader hdr).get? i = some o →
      o.folder = some k →
      o.uncompressed = List.replicate (ms.unpackinfo.folders.getD k {}).coders.length
        (us.getD (((filelistRetrieve basefilename afterheader hdr).take i).countP
          (fun x => x.folder.isSome)) 0) ∧
      (0 < (ms.unpackinfo.folders.getD k {}).coders.length →
        uncompressedSize o = some ((ms.unpackinfo.folders.getD k {}).coders.length *
          us.getD (((filelistRetrieve basefilename afterheader hdr).take i).countP
            (fun x => x.folder.isSome)) 0)) := by
  intro i o k hget hfold
  rw [filelistRetrieve_eq basefilename afterheader hdr ms finfo hms hfi] at hget ⊢
  have hcur2 : cursorAt (mkCtxOf basefilename ms) (mkCtxOf basefilename ms).folders.length ≤
      (mkCtxOf basefilename ms).packsizes.length := by
    show ((ms.unpackinfo.folders.take ms.unpackinfo.folders.length).map
      Folder.numInstreams).sum ≤ ms.packinfo.packsizes.length
    rw [List.take_length]
    exact hcur
  have hmaster := filelistLoop_master (mkCtxOf basefilename ms) hF hone hcur2
    finfo.files 0 (initRetrState afterheader ms) []
    (retrInv_init basefilename afterheader ms hF hone)
    (by
      rw [show (initRetrState afterheader ms).output_binary_index = 0 from rfl,
        Nat.zero_add]
      exact hcnt)
    i o k (by rw [List.nil_append]; exact hget) (Nat.zero_le i) hfold
  rw [List.nil_append] at hmaster
  obtain ⟨_, _, _, _, _, h6⟩ := hmaster
  have hctx : (mkCtxOf basefilename ms).unpacksizes = us.map UnpackEntry.single := by
    show (match ms.substreamsinfo.unpacksizes with
      | some l => l.map UnpackEntry.single
      | none => ms.unpackinfo.folders.map (fun f => UnpackEntry.sizes f.unpacksizes)) =
        us.map UnpackEntry.single
    rw [hus]
  have h7 : o.uncompressed =
      List.replicate (ms.unpackinfo.folders.getD k {}).coders.length
        (us.getD (((filelistLoop (mkCtxOf basefilename ms) true 0
          (initRetrState afterheader ms) finfo.files).take i).countP
            (fun x => x.folder.isSome)) 0) := by
    rw [h6, hctx, List.getD_map]
    rfl
  refine ⟨h7, ?_⟩
  intro hC
  obtain ⟨m, hm⟩ : ∃ m, (ms.unpackinfo.folders.getD k {}).coders.length = m + 1 :=
    ⟨(ms.unpackinfo.folders.getD k {}).coders.length - 1, by omega⟩
  rw [hm]
  exact uncompressedSize_replicate o m _ (by rw [h7, hm])

/-- Claim C10 (witness): the first file of `plainHdr` sits in a folder
with two coders and substream size 7, so its `uncompressed` is `[7, 7]`
and its `uncompressed_size` is `14`. -/
theorem C10_witness :
    (plainStreams.substreamsinfo.unpacksizes = some [7, 9]) ∧
    (plainStreams.substreamsinfo.num_unpackstreams_folders.length =
      plainStreams.unpackinfo.folders.length) ∧
    (∀ n ∈ plainStreams.substreamsinfo.num_unpackstreams_folders, 1 ≤ n) ∧
    (((plainStreams.unpackinfo.folders).map Folder.numInstreams).sum ≤
      plainStreams.packinfo.packsizes.length) ∧
    (plainFilesInfo.files.countP (fun f => !f.emptystream) ≤
      plainStreams.substreamsinfo.num_unpackstreams_folders.sum) ∧
    (filelistRetrieve none 32 plainHdr).get? 0 = some plainOut0 ∧
    plainOut0.folder = some 0 ∧
    plainOut0.uncompressed = [7, 7] ∧
    uncompressedSize plainOut0 = some 14 := by
  have h := C10_uncompressed_replicated none 32 plainHdr plainStreams plainFilesInfo
    [7, 9] rfl rfl rfl (by decide) (by decide) (by decide) (by decide) 0 plainOut0 0
    (by decide) (by decide)
  refine ⟨rfl, by decide, by decide, by decide, by decide, rfl, rfl, ?_, ?_⟩
  · rw [h.1]
    decide
  · rw [h.2 (by decide)]
    decide
